import Mathlib

/-!
A shallow embedding of the SuperBitcoin unconfirmed-transaction memory pool
(`src/mempool/txmempool.cpp`), together with theorems checking the
specification's claims about it.

Transactions are identified by natural-number txids.  Amounts (`CAmount`,
an `int64_t`) are `Int`; sizes are `Nat` where the source uses `size_t` for
a single entry and `Int` for the signed aggregate counters (the source keeps
them unsigned and asserts positivity after every signed update).  External
collaborators — chain state, the UTXO view, script verification, policy
helpers that live outside the repository sources — enter as oracle data.
-/

namespace Mempool

abbrev TxId := Nat

/-- An outpoint `(hash, n)`: output number `n` of transaction `hash`. -/
structure COutPoint where
  hash : TxId
  n : Nat
  deriving DecidableEq, Repr

/-- A transaction input: the outpoint it spends and its sequence number. -/
structure CTxIn where
  prevout : COutPoint
  nSequence : Nat
  deriving DecidableEq, Repr

/-- The transaction payload as far as the mempool reads it: txid, inputs,
number of outputs, and whether it carries witness data. -/
structure CTransaction where
  txid : TxId
  vin : List CTxIn
  voutLen : Nat
  hasWitness : Bool
  deriving DecidableEq, Repr

/-- `MAX_BIP125_RBF_SEQUENCE`: per the source comment it is
`SEQUENCE_FINAL - 2`, i.e. `0xfffffffd`. -/
def MAX_BIP125_RBF_SEQUENCE : Nat := 0xfffffffd

/-- `CTxMemPoolEntry`.  `txSize` carries the value of `GetTxSize()`
(`GetVirtualTransactionSize(nTxWeight, sigOpCost)`, computed by policy code
outside the repository sources) and `nUsageSize` the value of
`RecursiveDynamicUsage`; both enter the model as data.  `parents` and
`children` carry the entry's `mapLinks` record (`TxLinks`), kept in lockstep
with the store exactly as the source does. -/
structure CTxMemPoolEntry where
  tx : CTransaction
  nFee : Int
  nTime : Int
  entryHeight : Nat
  spendsCoinbase : Bool
  sigOpCost : Int
  txSize : Nat
  nUsageSize : Nat
  feeDelta : Int
  nCountWithDescendants : Int
  nSizeWithDescendants : Int
  nModFeesWithDescendants : Int
  nCountWithAncestors : Int
  nSizeWithAncestors : Int
  nModFeesWithAncestors : Int
  nSigOpCostWithAncestors : Int
  parents : List TxId
  children : List TxId
  deriving DecidableEq, Repr

/-- The `CTxMemPoolEntry` constructor: descendant and ancestor aggregates
start as the entry's own size/fee/sigops, the counts start at 1, `feeDelta`
at 0, and the link record starts empty. -/
def mkCTxMemPoolEntry (tx : CTransaction) (nFee : Int) (nTime : Int)
    (entryHeight : Nat) (spendsCoinbase : Bool) (sigOpsCost : Int)
    (txSize nUsageSize : Nat) : CTxMemPoolEntry :=
  { tx := tx, nFee := nFee, nTime := nTime, entryHeight := entryHeight
    spendsCoinbase := spendsCoinbase, sigOpCost := sigOpsCost
    txSize := txSize, nUsageSize := nUsageSize
    feeDelta := 0
    nCountWithDescendants := 1, nSizeWithDescendants := (txSize : Int)
    nModFeesWithDescendants := nFee
    nCountWithAncestors := 1, nSizeWithAncestors := (txSize : Int)
    nModFeesWithAncestors := nFee, nSigOpCostWithAncestors := sigOpsCost
    parents := [], children := [] }

/-- Modelled from the spec: `modifiedFee = fee + feeDelta` (the accessor
`GetModifiedFee` lives in the header, which is not among the sources). -/
def CTxMemPoolEntry.GetModifiedFee (e : CTxMemPoolEntry) : Int :=
  e.nFee + e.feeDelta

/-- `CTxMemPoolEntry::UpdateFeeDelta`: adjust both fee aggregates by
`newFeeDelta - feeDelta` and store the new delta. -/
def CTxMemPoolEntry.UpdateFeeDelta (e : CTxMemPoolEntry) (newFeeDelta : Int) :
    CTxMemPoolEntry :=
  { e with
    nModFeesWithDescendants := e.nModFeesWithDescendants + newFeeDelta - e.feeDelta
    nModFeesWithAncestors := e.nModFeesWithAncestors + newFeeDelta - e.feeDelta
    feeDelta := newFeeDelta }

/-- `CTxMemPoolEntry::UpdateDescendantState`: apply signed deltas to the
descendant aggregate. -/
def CTxMemPoolEntry.UpdateDescendantState (e : CTxMemPoolEntry)
    (modifySize modifyFee modifyCount : Int) : CTxMemPoolEntry :=
  { e with
    nSizeWithDescendants := e.nSizeWithDescendants + modifySize
    nModFeesWithDescendants := e.nModFeesWithDescendants + modifyFee
    nCountWithDescendants := e.nCountWithDescendants + modifyCount }

/-- `CTxMemPoolEntry::UpdateAncestorState`: apply signed deltas to the
ancestor aggregate. -/
def CTxMemPoolEntry.UpdateAncestorState (e : CTxMemPoolEntry)
    (modifySize modifyFee modifyCount modifySigOps : Int) : CTxMemPoolEntry :=
  { e with
    nSizeWithAncestors := e.nSizeWithAncestors + modifySize
    nModFeesWithAncestors := e.nModFeesWithAncestors + modifyFee
    nCountWithAncestors := e.nCountWithAncestors + modifyCount
    nSigOpCostWithAncestors := e.nSigOpCostWithAncestors + modifySigOps }

/-- `MemPoolRemovalReason`. -/
inductive MemPoolRemovalReason
  | UNKNOWN | EXPIRY | SIZELIMIT | REORG | BLOCK | CONFLICT | REPLACED | MANUAL
  deriving DecidableEq, Repr

/-- Rejection kinds used by the admission pipeline (`REJECT_...` codes). -/
inductive RejectKind
  | INVALID | NONSTANDARD | INSUFFICIENTFEE | DUPLICATE | HIGHFEE
  deriving DecidableEq, Repr

/-- A rejection: kind plus the short reason tag passed to the validation
state. -/
structure Rejection where
  kind : RejectKind
  reason : String
  deriving DecidableEq, Repr

/-- `CTxMemPool`.  `mapTx` is the entry store (keyed by txid); `mapNextTx` is
derived from the entries' inputs; `mapLinks` lives inside the entries.
`totalTxSize` is kept as a signed integer (the source keeps it `uint64_t`).
`feeEstimatorAdds` records the `processTransaction(entry, validFeeEstimate)`
calls made to the injected fee estimator. -/
structure CTxMemPool where
  mapTx : List CTxMemPoolEntry
  mapDeltas : List (TxId × Int)
  totalTxSize : Int
  nTransactionsUpdated : Nat
  rollingMinimumFeeRate : Int
  blockSinceLastRollingFeeBump : Bool
  feeEstimatorAdds : List (TxId × Bool)
  deriving DecidableEq, Repr

/-- `mapTx.find(hash)`. -/
def CTxMemPool.findTx (pool : CTxMemPool) (h : TxId) : Option CTxMemPoolEntry :=
  pool.mapTx.find? (fun e => e.tx.txid == h)

/-- `exists(hash)`: membership in `mapTx`. -/
def CTxMemPool.existsTx (pool : CTxMemPool) (h : TxId) : Bool :=
  (pool.findTx h).isSome

/-- `mapNextTx.find(outpoint)`: the in-pool entry spending `outpoint`.  In the
source `mapNextTx` is an index kept in lockstep with `mapTx` (at most one
spender per outpoint); here it is derived from the entries' inputs. -/
def CTxMemPool.mapNextTxFind (pool : CTxMemPool) (op : COutPoint) :
    Option CTxMemPoolEntry :=
  pool.mapTx.find? (fun e => e.tx.vin.any (fun txin => txin.prevout == op))

/-- Lookup in `mapDeltas` with default 0. -/
def lookupDelta (m : List (TxId × Int)) (h : TxId) : Int :=
  match m.find? (fun p => p.1 == h) with
  | none => 0
  | some p => p.2

/-- `ApplyDelta(hash, nFeeDelta)`: add the stored prioritisation delta. -/
def CTxMemPool.ApplyDelta (pool : CTxMemPool) (hash : TxId) (nFeeDelta : Int) :
    Int :=
  nFeeDelta + lookupDelta pool.mapDeltas hash

/-- `mapDeltas[hash] += d` (`operator[]` default-inserts 0). -/
def bumpDelta (m : List (TxId × Int)) (h : TxId) (d : Int) : List (TxId × Int) :=
  match m.find? (fun p => p.1 == h) with
  | none => m ++ [(h, d)]
  | some _ => m.map (fun p => if p.1 == h then (p.1, p.2 + d) else p)

/-- Insertion into a `std::set`-style ascending duplicate-free list of
txids. -/
def setInsert (t : TxId) : List TxId → List TxId
  | [] => [t]
  | x :: xs =>
    if t < x then t :: x :: xs else if t = x then x :: xs else x :: setInsert t xs

/-- Erase a txid from a set list. -/
def setRemove (t : TxId) (s : List TxId) : List TxId :=
  s.filter (fun x => x != t)

/-- `mapTx.modify(it, f)` on the entry with txid `t`. -/
def CTxMemPool.modifyTx (pool : CTxMemPool) (t : TxId)
    (f : CTxMemPoolEntry → CTxMemPoolEntry) : CTxMemPool :=
  { pool with mapTx := pool.mapTx.map (fun e => if e.tx.txid == t then f e else e) }

/-- A loop `for (txiter x : S) mapTx.modify(x, f)` over a set `S` of distinct
in-pool entries. -/
def CTxMemPool.modifySet (pool : CTxMemPool) (s : List TxId)
    (f : CTxMemPoolEntry → CTxMemPoolEntry) : CTxMemPool :=
  { pool with mapTx := pool.mapTx.map (fun e => if s.contains e.tx.txid then f e else e) }

/-- `UpdateChild(entry, child, add)`: insert or erase `child` in
`mapLinks[entry].children`.  (The cached-usage bookkeeping is not modelled;
dynamic memory usage enters the model as an oracle.) -/
def CTxMemPool.UpdateChild (pool : CTxMemPool) (entry child : TxId) (add : Bool) :
    CTxMemPool :=
  pool.modifyTx entry (fun e =>
    { e with children := if add then setInsert child e.children else setRemove child e.children })

/-- `UpdateParent(entry, parent, add)`: insert or erase `parent` in
`mapLinks[entry].parents`. -/
def CTxMemPool.UpdateParent (pool : CTxMemPool) (entry parent : TxId) (add : Bool) :
    CTxMemPool :=
  pool.modifyTx entry (fun e =>
    { e with parents := if add then setInsert parent e.parents else setRemove parent e.parents })

/-- Worklist fuel for `CalculateDescendants`: the traversal stages each txid
at most once per child-link slot, so this bound dominates the loop count. -/
def cdFuel (pool : CTxMemPool) : Nat :=
  pool.mapTx.length + (pool.mapTx.map (fun e => e.children.length)).sum + 2

/-- The `while (!stageEntries.empty())` loop of `CalculateDescendants`:
pop the least staged txid, add it to the accumulated set, and stage its
children that are not yet accounted for. -/
def CalculateDescendantsGo (pool : CTxMemPool) :
    Nat → List TxId → List TxId → List TxId
  | 0, _, setDescendants => setDescendants
  | fuel + 1, stage, setDescendants =>
    match stage with
    | [] => setDescendants
    | it :: rest =>
      let setDescendants' := setInsert it setDescendants
      let childs := match pool.findTx it with
        | none => []
        | some e => e.children
      let stage' := childs.foldl (fun acc c =>
        if setDescendants'.contains c then acc else setInsert c acc) rest
      CalculateDescendantsGo pool fuel stage' setDescendants'

/-- `CalculateDescendants(entryit, setDescendants)`: add to `setDescendants`
every in-pool descendant of `entryit` (itself included) not already
accounted for. -/
def CTxMemPool.CalculateDescendants (pool : CTxMemPool) (entryit : TxId)
    (setDescendants : List TxId) : List TxId :=
  let stage : List TxId := if setDescendants.contains entryit then [] else [entryit]
  CalculateDescendantsGo pool (cdFuel pool) stage setDescendants

/-- `nNoLimit = std::numeric_limits<uint64_t>::max()`. -/
def nNoLimit : Nat := 2 ^ 64 - 1

/-- Worklist fuel for `CalculateMemPoolAncestors`: every staged txid consumes
either a direct-parent slot of the candidate or a parent-link slot of a pool
entry, so this bound dominates the loop count. -/
def cmpaFuel (pool : CTxMemPool) (entry : CTxMemPoolEntry) : Nat :=
  pool.mapTx.length + (pool.mapTx.map (fun e => e.parents.length)).sum +
    entry.tx.vin.length + entry.parents.length + 1

/-- The `while (!parentHashes.empty())` loop of `CalculateMemPoolAncestors`:
pop the least staged txid, add it to `setAncestors`, check the descendant
and ancestor-size limits, then stage its parents checking the ancestor-count
limit after each insertion.  Returns the success flag together with the
`setAncestors` out-parameter (which is partially filled on failure, exactly
as in the source). -/
def CalculateMemPoolAncestorsGo (pool : CTxMemPool) (entryTxSize : Nat)
    (limitAncestorCount limitAncestorSize limitDescendantCount limitDescendantSize : Nat) :
    Nat → List TxId → List TxId → Nat → Bool × List TxId
  | 0, _, setAncestors, _ => (false, setAncestors)
  | fuel + 1, parentHashes, setAncestors, totalSizeWithAncestors =>
    match parentHashes with
    | [] => (true, setAncestors)
    | stageit :: rest =>
      match pool.findTx stageit with
      | none =>
        CalculateMemPoolAncestorsGo pool entryTxSize limitAncestorCount
          limitAncestorSize limitDescendantCount limitDescendantSize
          fuel rest setAncestors totalSizeWithAncestors
      | some stageEntry =>
        let setAncestors' := setInsert stageit setAncestors
        let totalSize' := totalSizeWithAncestors + stageEntry.txSize
        if stageEntry.nSizeWithDescendants + (entryTxSize : Int) > (limitDescendantSize : Int) then
          (false, setAncestors')
        else if stageEntry.nCountWithDescendants + 1 > (limitDescendantCount : Int) then
          (false, setAncestors')
        else if totalSize' > limitAncestorSize then
          (false, setAncestors')
        else
          match stageEntry.parents.foldlM (fun acc phash =>
              let acc' := if setAncestors'.contains phash then acc else setInsert phash acc
              if acc'.length + setAncestors'.length + 1 > limitAncestorCount then
                Except.error ()
              else Except.ok acc') rest with
          | Except.error _ => (false, setAncestors')
          | Except.ok rest' =>
            CalculateMemPoolAncestorsGo pool entryTxSize limitAncestorCount
              limitAncestorSize limitDescendantCount limitDescendantSize
              fuel rest' setAncestors' totalSize'

/-- `CalculateMemPoolAncestors(entry, setAncestors, limits..., fSearchForParents)`.
When `fSearchForParents` the direct parents are looked up through `mapTx` from
the candidate's inputs (checking the ancestor-count limit after each); when
not, they are taken from the entry's link record. -/
def CalculateMemPoolAncestors (pool : CTxMemPool) (entry : CTxMemPoolEntry)
    (limitAncestorCount limitAncestorSize limitDescendantCount limitDescendantSize : Nat)
    (fSearchForParents : Bool) : Bool × List TxId :=
  let init : Except Unit (List TxId) :=
    if fSearchForParents then
      entry.tx.vin.foldlM (fun ph txin =>
        match pool.findTx txin.prevout.hash with
        | none => Except.ok ph
        | some _ =>
          let ph' := setInsert txin.prevout.hash ph
          if ph'.length + 1 > limitAncestorCount then Except.error ()
          else Except.ok ph') []
    else
      Except.ok (entry.parents.foldl (fun s p => setInsert p s) [])
  match init with
  | Except.error _ => (false, [])
  | Except.ok parentHashes =>
    CalculateMemPoolAncestorsGo pool entry.txSize limitAncestorCount
      limitAncestorSize limitDescendantCount limitDescendantSize
      (cmpaFuel pool entry) parentHashes [] entry.txSize

/-- `UpdateAncestorsOf(add, it, setAncestors)`: add/remove `it` as a child of
each of its link-graph parents, then apply `±(size, modFee, 1)` to every
ancestor's descendant aggregate. -/
def CTxMemPool.UpdateAncestorsOf (pool : CTxMemPool) (add : Bool) (it : TxId)
    (setAncestors : List TxId) : CTxMemPool :=
  let parentIters := match pool.findTx it with
    | none => []
    | some e => e.parents
  let pool1 := parentIters.foldl (fun p piter => p.UpdateChild piter it add) pool
  match pool1.findTx it with
  | none => pool1
  | some e =>
    let updateCount : Int := if add then 1 else -1
    let updateSize := updateCount * (e.txSize : Int)
    let updateFee := updateCount * e.GetModifiedFee
    pool1.modifySet setAncestors (fun a =>
      a.UpdateDescendantState updateSize updateFee updateCount)

/-- `UpdateEntryForAncestors(it, setAncestors)`: set the entry's ancestor
aggregate from the sum over `setAncestors`. -/
def CTxMemPool.UpdateEntryForAncestors (pool : CTxMemPool) (it : TxId)
    (setAncestors : List TxId) : CTxMemPool :=
  let updateCount : Int := setAncestors.length
  let sums := setAncestors.foldl (fun (acc : Int × Int × Int) a =>
    match pool.findTx a with
    | none => acc
    | some ae => (acc.1 + (ae.txSize : Int), acc.2.1 + ae.GetModifiedFee,
                  acc.2.2 + ae.sigOpCost)) (0, 0, 0)
  pool.modifyTx it (fun e => e.UpdateAncestorState sums.1 sums.2.1 updateCount sums.2.2)

/-- `UpdateChildrenForRemoval(it)`: sever the parent link pointing to `it` in
each of its children. -/
def CTxMemPool.UpdateChildrenForRemoval (pool : CTxMemPool) (it : TxId) : CTxMemPool :=
  let childs := match pool.findTx it with
    | none => []
    | some e => e.children
  childs.foldl (fun p c => p.UpdateParent c it false) pool

/-- `UpdateForRemoveFromMempool(entriesToRemove, updateDescendants)`. -/
def CTxMemPool.UpdateForRemoveFromMempool (pool : CTxMemPool)
    (entriesToRemove : List TxId) (updateDescendants : Bool) : CTxMemPool :=
  let pool1 :=
    if updateDescendants then
      entriesToRemove.foldl (fun p removeIt =>
        match p.findTx removeIt with
        | none => p
        | some e =>
          let setDescendants := setRemove removeIt (p.CalculateDescendants removeIt [])
          p.modifySet setDescendants (fun d =>
            d.UpdateAncestorState (-(e.txSize : Int)) (-e.GetModifiedFee) (-1) (-e.sigOpCost))) pool
    else pool
  let pool2 := entriesToRemove.foldl (fun p removeIt =>
    match p.findTx removeIt with
    | none => p
    | some e =>
      let setAncestors :=
        (CalculateMemPoolAncestors p e nNoLimit nNoLimit nNoLimit nNoLimit false).2
      p.UpdateAncestorsOf false removeIt setAncestors) pool1
  entriesToRemove.foldl (fun p removeIt => p.UpdateChildrenForRemoval removeIt) pool2

/-- `removeUnchecked(it, reason)`: erase the entry (its `mapNextTx` rows are
derived and disappear with it) and subtract its size from `totalTxSize`. -/
def CTxMemPool.removeUnchecked (pool : CTxMemPool) (it : TxId)
    (_reason : MemPoolRemovalReason) : CTxMemPool :=
  match pool.findTx it with
  | none => pool
  | some e =>
    { pool with
      mapTx := pool.mapTx.filter (fun x => !(x.tx.txid == it))
      totalTxSize := pool.totalTxSize - (e.txSize : Int)
      nTransactionsUpdated := pool.nTransactionsUpdated + 1 }

/-- `RemoveStaged(stage, updateDescendants, reason)`. -/
def CTxMemPool.RemoveStaged (pool : CTxMemPool) (stage : List TxId)
    (updateDescendants : Bool) (reason : MemPoolRemovalReason) : CTxMemPool :=
  let p1 := pool.UpdateForRemoveFromMempool stage updateDescendants
  stage.foldl (fun p it => p.removeUnchecked it reason) p1

/-- `addUnchecked(hash, entry, setAncestors, validFeeEstimate)`. -/
def CTxMemPool.addUnchecked (pool : CTxMemPool) (hash : TxId)
    (entry : CTxMemPoolEntry) (setAncestors : List TxId)
    (validFeeEstimate : Bool) : CTxMemPool :=
  let p0 := { pool with mapTx := entry :: pool.mapTx }
  let p1 := match pool.mapDeltas.find? (fun pr => pr.1 == hash) with
    | none => p0
    | some pr => if pr.2 ≠ 0 then p0.modifyTx hash (fun e => e.UpdateFeeDelta pr.2) else p0
  let setParentTransactions :=
    (entry.tx.vin.map (fun txin => txin.prevout.hash)).foldl (fun s h => setInsert h s) []
  let p2 := setParentTransactions.foldl (fun p phash =>
    match p.findTx phash with
    | none => p
    | some _ => p.UpdateParent hash phash true) p1
  let p3 := p2.UpdateAncestorsOf true hash setAncestors
  let p4 := p3.UpdateEntryForAncestors hash setAncestors
  { p4 with
    nTransactionsUpdated := p4.nTransactionsUpdated + 1
    totalTxSize := p4.totalTxSize + (entry.txSize : Int)
    feeEstimatorAdds := p4.feeEstimatorAdds ++ [(hash, validFeeEstimate)] }

/-- `removeRecursive(origTx, reason)`: stage `origTx` itself when present, or
otherwise the in-pool spenders of its outputs; remove the staged entries with
all their descendants. -/
def CTxMemPool.removeRecursive (pool : CTxMemPool) (origTx : CTransaction)
    (reason : MemPoolRemovalReason) : CTxMemPool :=
  let txToRemove : List TxId :=
    match pool.findTx origTx.txid with
    | some _ => [origTx.txid]
    | none =>
      (List.range origTx.voutLen).foldl (fun acc i =>
        match pool.mapNextTxFind ⟨origTx.txid, i⟩ with
        | none => acc
        | some nextE => setInsert nextE.tx.txid acc) []
  let setAllRemoves := txToRemove.foldl (fun acc it => pool.CalculateDescendants it acc) []
  pool.RemoveStaged setAllRemoves false reason

/-- `Expire(time)`: remove every entry with `nTime < time` together with its
descendants; returns the number of removed entries. -/
def CTxMemPool.Expire (pool : CTxMemPool) (time : Int) : CTxMemPool × Nat :=
  let toremove := ((pool.mapTx.filter (fun e => decide (e.nTime < time))).map
    (fun e => e.tx.txid)).foldl (fun s t => setInsert t s) []
  let stage := toremove.foldl (fun acc it => pool.CalculateDescendants it acc) []
  (pool.RemoveStaged stage false .EXPIRY, stage.length)

/-- Modelled from the spec: `CFeeRate(nFeePaid, nBytes)` stores satoshis per
1000 bytes — fee × 1000 / size with C++ `int64_t` division (truncation toward
zero), zero when the size is zero.  The `CFeeRate` class lives outside the
repository sources; the spec defines feerate as modified fee divided by
virtual size. -/
def feeRatePerK (nFeePaid : Int) (nBytes : Int) : Int :=
  if nBytes = 0 then 0 else Int.tdiv (nFeePaid * 1000) nBytes

/-- Modelled from the spec: `CFeeRate::GetFee(nBytes) = perK × size / 1000`
(the spec's worked example computes `1000 × 250 / 1000 = 250`). -/
def feeRateGetFee (perK : Int) (nBytes : Nat) : Int :=
  Int.tdiv (perK * (nBytes : Int)) 1000

/-- Modelled from the spec: the descendant-feerate ordering of §4.2 — key
`(modFeesWithDescendants / sizeWithDescendants, txid)` compared as rationals
by cross-multiplication; eviction takes the lowest first.  The comparator
class lives in the header, which is not among the sources. -/
def descendantScoreBefore (a b : CTxMemPoolEntry) : Bool :=
  let f1 := a.nModFeesWithDescendants * b.nSizeWithDescendants
  let f2 := b.nModFeesWithDescendants * a.nSizeWithDescendants
  if f1 = f2 then decide (a.tx.txid < b.tx.txid) else decide (f1 < f2)

/-- `mapTx.get<descendant_score>().begin()`: the entry least in the
descendant-feerate ordering. -/
def CTxMemPool.minDescendantScore (pool : CTxMemPool) : Option CTxMemPoolEntry :=
  pool.mapTx.foldl (fun acc e =>
    match acc with
    | none => some e
    | some m => if descendantScoreBefore e m then some e else some m) none

/-- `trackPackageRemoved(rate)`: raise the rolling minimum feerate to the
removed package's rate when it is larger, clearing the block-bump flag. -/
def CTxMemPool.trackPackageRemoved (pool : CTxMemPool) (ratePerK : Int) : CTxMemPool :=
  if ratePerK > pool.rollingMinimumFeeRate then
    { pool with rollingMinimumFeeRate := ratePerK, blockSinceLastRollingFeeBump := false }
  else pool

/-- The body of `TrimToSize`'s `while (!mapTx.empty() && DynamicMemoryUsage() >
sizelimit)` loop.  `usage` stands for `DynamicMemoryUsage()`, whose formula
(`memusage` helpers) lives outside the repository sources. -/
def TrimToSizeGo (usage : CTxMemPool → Nat) (incRelayPerK : Int) (sizelimit : Nat) :
    Nat → CTxMemPool → List COutPoint → CTxMemPool × List COutPoint
  | 0, pool, acc => (pool, acc)
  | fuel + 1, pool, acc =>
    if pool.mapTx.isEmpty then (pool, acc)
    else if usage pool ≤ sizelimit then (pool, acc)
    else
      match pool.minDescendantScore with
      | none => (pool, acc)
      | some it =>
        let removedPerK :=
          feeRatePerK it.nModFeesWithDescendants it.nSizeWithDescendants + incRelayPerK
        let pool1 := pool.trackPackageRemoved removedPerK
        let stage := pool1.CalculateDescendants it.tx.txid []
        let txn := stage.filterMap (fun t => (pool1.findTx t).map (fun e => e.tx))
        let pool2 := pool1.RemoveStaged stage false .SIZELIMIT
        let acc' := txn.foldl (fun a tx =>
          tx.vin.foldl (fun a2 txin =>
            if pool2.existsTx txin.prevout.hash then a2 else a2 ++ [txin.prevout]) a) acc
        TrimToSizeGo usage incRelayPerK sizelimit fuel pool2 acc'

/-- `TrimToSize(sizelimit, pvNoSpendsRemaining)`: repeatedly evict the worst
descendant-feerate package while memory usage exceeds the limit, bumping the
rolling minimum feerate by the removed package's rate plus the incremental
relay fee; collect the outpoints of removed transactions whose parents left
the pool. -/
def CTxMemPool.TrimToSize (pool : CTxMemPool) (usage : CTxMemPool → Nat)
    (incRelayPerK : Int) (sizelimit : Nat) : CTxMemPool × List COutPoint :=
  TrimToSizeGo usage incRelayPerK sizelimit (pool.mapTx.length + 1) pool []

/-- `LimitMempoolSize(pool, limit, age)`: expire old entries, then trim to the
memory budget. -/
def LimitMempoolSize (pool : CTxMemPool) (usage : CTxMemPool → Nat)
    (incRelayPerK : Int) (limit : Nat) (age : Int) (now : Int) : CTxMemPool :=
  let p1 := (pool.Expire (now - age)).1
  (p1.TrimToSize usage incRelayPerK limit).1

/-- `PrioritiseTransaction(hash, nFeeDelta)`: accumulate the delta in
`mapDeltas`; when the entry is present, store the accumulated delta as its
fee delta, add the increment to every ancestor's descendant-fee aggregate and
to every descendant's ancestor-fee aggregate. -/
def CTxMemPool.PrioritiseTransaction (pool : CTxMemPool) (hash : TxId)
    (nFeeDelta : Int) : CTxMemPool :=
  let newDeltas := bumpDelta pool.mapDeltas hash nFeeDelta
  let delta := lookupDelta newDeltas hash
  let pool0 := { pool with mapDeltas := newDeltas }
  match pool0.findTx hash with
  | none => pool0
  | some _ =>
    let pool1 := pool0.modifyTx hash (fun e => e.UpdateFeeDelta delta)
    let setAncestors := match pool1.findTx hash with
      | none => []
      | some e1 =>
        (CalculateMemPoolAncestors pool1 e1 nNoLimit nNoLimit nNoLimit nNoLimit false).2
    let pool2 := pool1.modifySet setAncestors (fun a => a.UpdateDescendantState 0 nFeeDelta 0)
    let setDescendants := setRemove hash (pool2.CalculateDescendants hash [])
    let pool3 := pool2.modifySet setDescendants (fun d => d.UpdateAncestorState 0 nFeeDelta 0 0)
    { pool3 with nTransactionsUpdated := pool3.nTransactionsUpdated + 1 }

/-- `HasNoInputsOf(tx)`: no input of `tx` spends an in-pool transaction. -/
def CTxMemPool.HasNoInputsOf (pool : CTxMemPool) (tx : CTransaction) : Bool :=
  tx.vin.all (fun txin => !(pool.existsTx txin.prevout.hash))

/-- `TransactionWithinChainLimit(txid, chainLimit)`. -/
def CTxMemPool.TransactionWithinChainLimit (pool : CTxMemPool) (txid : TxId)
    (chainLimit : Nat) : Bool :=
  match pool.findTx txid with
  | none => true
  | some it =>
    decide (it.nCountWithAncestors < (chainLimit : Int)) &&
      decide (it.nCountWithDescendants < (chainLimit : Int))

/-- Modelled from the spec: script-verify flag bit values.  The policy headers
defining them are outside the repository sources; the exact values are
irrelevant to the claims checked here. -/
def SCRIPT_VERIFY_WITNESS : Nat := 2 ^ 11

/-- Modelled from the spec: the `CLEANSTACK` script-verify flag bit. -/
def SCRIPT_VERIFY_CLEANSTACK : Nat := 2 ^ 8

/-- Modelled from the spec: the mandatory script-verify flag set. -/
def MANDATORY_SCRIPT_VERIFY_FLAGS : Nat := 1

/-- Modelled from the spec: the standard script-verify flag set. -/
def STANDARD_SCRIPT_VERIFY_FLAGS : Nat := 0x1ffff

/-- Bitwise complement of a 32-bit flag word (`~flags` on `unsigned int`). -/
def maskNot32 (flags : Nat) : Nat := Nat.xor flags (2 ^ 32 - 1)

/-- Node configuration read by the admission pipeline: global policy switches
and the `gArgs` tunables, at the values the worker reads them. -/
structure Config where
  fRequireStandard : Bool
  chainRequireStandard : Bool
  fEnableReplacement : Bool
  prematureWitnessArg : Bool
  promiscuousFlagsArg : Nat
  limitAncestorCountArg : Nat
  limitAncestorSizeArg : Nat
  limitDescendantCountArg : Nat
  limitDescendantSizeArg : Nat
  maxMempoolArg : Nat
  mempoolExpiryArg : Nat
  minRelayFeePerK : Int
  incrementalRelayFeePerK : Int
  maxStandardTxSigOpsCost : Int

/-- Oracles for the external collaborators the worker consults: basic
transaction checks, chain state, the coins view, script verification
(`checkInputs flags`, `checkInputsMempoolCache flags`), values derived by
external helpers, the clock and the dynamic-memory-usage accountant. -/
structure Externals where
  checkTransactionOk : Bool
  isCoinBase : Bool
  witnessEnabled : Bool
  isStandardOk : Bool
  standardReason : String
  checkFinalOk : Bool
  viewHaveCoin : COutPoint → Bool
  cacheHaveCoin : COutPoint → Bool
  checkSequenceLocksOk : Bool
  areInputsStandardOk : Bool
  isWitnessStandardOk : Bool
  nSigOpsCost : Int
  nValueIn : Int
  nValueOut : Int
  spendsCoinbase : Bool
  entrySize : Nat
  entryUsageSize : Nat
  chainHeight : Nat
  mempoolRejectFee : Int
  checkInputs : Nat → Bool
  checkInputsMempoolCache : Nat → Bool
  isCurrentForFeeEstimation : Bool
  now : Int
  usage : CTxMemPool → Nat

/-- Outcome of `AcceptToMemoryPoolWorker`: acceptance or one of its failure
shapes, each carrying the pool state at return.  `externalInvalid` stands for
a `CheckTransaction` failure (state filled by the callee), `scriptFailed` for
a standard-flag `CheckInputs` failure (with the corruption-possible marker),
`fatalBug` for the `"BUG! PLEASE REPORT THIS!"` error return, and
`fatalMandatory` for the mandatory-flag error return under promiscuous
flags. -/
inductive ATMPResult
  | accepted (pool : CTxMemPool)
  | rejected (r : Rejection) (pool : CTxMemPool)
  | missingInputs (pool : CTxMemPool)
  | externalInvalid (pool : CTxMemPool)
  | scriptFailed (corruptionPossible : Bool) (pool : CTxMemPool)
  | fatalBug (pool : CTxMemPool)
  | fatalMandatory (pool : CTxMemPool)
  deriving DecidableEq, Repr

/-- The conflict-detection loop of the worker (source lines 167–212): for each
input, look up `mapNextTx`; a conflicting transaction opts out of replacement
unless some input of it has sequence ≤ `MAX_BIP125_RBF_SEQUENCE` (or
replacement is disabled); an opt-out conflict rejects `DUPLICATE
"txn-mempool-conflict"`, an opt-in conflict is remembered. -/
def CTxMemPool.detectConflicts (pool : CTxMemPool) (fEnableReplacement : Bool)
    (tx : CTransaction) : Except Rejection (List TxId) :=
  tx.vin.foldlM (fun setConflicts txin =>
    match pool.mapNextTxFind txin.prevout with
    | none => Except.ok setConflicts
    | some confE =>
      if setConflicts.contains confE.tx.txid then Except.ok setConflicts
      else
        let fReplacementOptOut :=
          if fEnableReplacement then
            !(confE.tx.vin.any (fun ti => decide (ti.nSequence ≤ MAX_BIP125_RBF_SEQUENCE)))
          else true
        if fReplacementOptOut then Except.error ⟨.DUPLICATE, "txn-mempool-conflict"⟩
        else Except.ok (setInsert confE.tx.txid setConflicts)) []

/-- One iteration of the per-conflict loop in the replacement arbitration
(source lines 379–421): skip unknown conflicts, reject when the replacement's
feerate does not exceed the conflict's, and accumulate the conflict set, its
parents and the descendant count. -/
def replConflictStep (pool : CTxMemPool) (newFeeRate : Int)
    (acc : List TxId × List TxId × Int) (hashConflicting : TxId) :
    Except Rejection (List TxId × List TxId × Int) :=
  match pool.findTx hashConflicting with
  | none => Except.ok acc
  | some mi =>
    if newFeeRate ≤ feeRatePerK mi.GetModifiedFee (mi.txSize : Int) then
      Except.error ⟨.INSUFFICIENTFEE, "insufficient fee"⟩
    else
      Except.ok (setInsert hashConflicting acc.1,
        mi.tx.vin.foldl (fun s ti => setInsert ti.prevout.hash s) acc.2.1,
        acc.2.2 + mi.nCountWithDescendants)

/-- The replacement-arbitration block of the worker (source lines 372–490):
per-conflict feerate checks accumulating the conflicts' parents and descendant
count, the 100-descendant bound, computation of the evicted set and its fees,
the no-new-unconfirmed-inputs rule, and the two absolute-fee rules.  Returns
the set of transactions that would be evicted. -/
def CTxMemPool.replacementChecks (pool : CTxMemPool) (incRelayPerK : Int)
    (tx : CTransaction) (nModifiedFees : Int) (nSize : Nat)
    (setConflicts : List TxId) : Except Rejection (List TxId) :=
  if setConflicts.isEmpty then Except.ok []
  else
    match setConflicts.foldlM
      (replConflictStep pool (feeRatePerK nModifiedFees (nSize : Int)))
      ([], [], (0 : Int)) with
    | Except.error r => Except.error r
    | Except.ok (setIterConflicting, setConflictsParents, nConflictingCount) =>
      if nConflictingCount ≤ 100 then
        let allConflicting := setIterConflicting.foldl
          (fun acc it => pool.CalculateDescendants it acc) []
        let nConflictingFees := allConflicting.foldl (fun s it =>
          match pool.findTx it with
          | none => s
          | some e => s + e.GetModifiedFee) 0
        if tx.vin.any (fun txin =>
            !(setConflictsParents.contains txin.prevout.hash) &&
              (pool.findTx txin.prevout.hash).isSome) then
          Except.error ⟨.NONSTANDARD, "replacement-adds-unconfirmed"⟩
        else if nModifiedFees < nConflictingFees then
          Except.error ⟨.INSUFFICIENTFEE, "insufficient fee"⟩
        else if nModifiedFees - nConflictingFees < feeRateGetFee incRelayPerK nSize then
          Except.error ⟨.INSUFFICIENTFEE, "insufficient fee"⟩
        else Except.ok allConflicting
      else Except.error ⟨.NONSTANDARD, "too many potential replacements"⟩

/-- Modelled from the spec: the documented fee-estimation predicate —
not a BIP 125 replacement, node current, and no in-pool inputs.  The source
comments this computation out ("modified by sky") and substitutes `false`. -/
def validForFeeEstimationSpec (E : Externals) (pool : CTxMemPool)
    (fReplacementTransaction : Bool) (tx : CTransaction) : Bool :=
  !fReplacementTransaction && E.isCurrentForFeeEstimation && pool.HasNoInputsOf tx

/-- The commit phase of the worker (source lines 561–595): evict the replaced
set (reason `REPLACED`), insert the entry with `validForFeeEstimation` forced
to `false` as in the source, and unless `fOverrideMempoolLimit` run
`LimitMempoolSize` and reject `"mempool full"` when the entry itself was
trimmed. -/
def commitTransaction (E : Externals) (cfg : Config) (pool : CTxMemPool)
    (tx : CTransaction) (entry : CTxMemPoolEntry)
    (setAncestors allConflicting : List TxId)
    (fOverrideMempoolLimit : Bool) : ATMPResult :=
  let pool1 := pool.RemoveStaged allConflicting false .REPLACED
  let validForFeeEstimation := false
  let pool2 := pool1.addUnchecked tx.txid entry setAncestors validForFeeEstimation
  if !fOverrideMempoolLimit then
    let pool3 := LimitMempoolSize pool2 E.usage cfg.incrementalRelayFeePerK
      (cfg.maxMempoolArg * 1000000) ((cfg.mempoolExpiryArg : Int) * 60 * 60) E.now
    if !pool3.existsTx tx.txid then .rejected ⟨.INSUFFICIENTFEE, "mempool full"⟩ pool3
    else .accepted pool3
  else .accepted pool2

/-- `AcceptToMemoryPoolWorker`: the admission pipeline, step for step.  The
`currentBlockScriptVerifyFlags` used for the policy-vs-consensus reconcile is
the constant 0, exactly as in the source, where the `GetBlockScriptFlags`
call is commented out ("modified by sky"). -/
def AcceptToMemoryPoolWorker (E : Externals) (cfg : Config) (pool : CTxMemPool)
    (tx : CTransaction) (fLimitFree : Bool) (nAcceptTime : Int)
    (fOverrideMempoolLimit : Bool) (nAbsurdFee : Int) : ATMPResult :=
  if !E.checkTransactionOk then .externalInvalid pool
  else if E.isCoinBase then .rejected ⟨.INVALID, "coinbase"⟩ pool
  else if !cfg.prematureWitnessArg && tx.hasWitness && !E.witnessEnabled then
    .rejected ⟨.NONSTANDARD, "no-witness-yet"⟩ pool
  else if cfg.fRequireStandard && !E.isStandardOk then
    .rejected ⟨.NONSTANDARD, E.standardReason⟩ pool
  else if !E.checkFinalOk then .rejected ⟨.NONSTANDARD, "non-final"⟩ pool
  else if pool.existsTx tx.txid then
    .rejected ⟨.DUPLICATE, "txn-already-in-mempool"⟩ pool
  else
    match pool.detectConflicts cfg.fEnableReplacement tx with
    | Except.error r => .rejected r pool
    | Except.ok setConflicts =>
      if tx.vin.any (fun txin => !E.viewHaveCoin txin.prevout) then
        if (List.range tx.voutLen).any (fun o => E.cacheHaveCoin ⟨tx.txid, o⟩) then
          .rejected ⟨.DUPLICATE, "txn-already-known"⟩ pool
        else .missingInputs pool
      else if !E.checkSequenceLocksOk then
        .rejected ⟨.NONSTANDARD, "non-BIP68-final"⟩ pool
      else if cfg.fRequireStandard && !E.areInputsStandardOk then
        .rejected ⟨.NONSTANDARD, "bad-txns-nonstandard-inputs"⟩ pool
      else if tx.hasWitness && cfg.fRequireStandard && !E.isWitnessStandardOk then
        .rejected ⟨.NONSTANDARD, "bad-witness-nonstandard"⟩ pool
      else
        let nSigOpsCost := E.nSigOpsCost
        let nFees := E.nValueIn - E.nValueOut
        let nModifiedFees := pool.ApplyDelta tx.txid nFees
        let entry := mkCTxMemPoolEntry tx nFees nAcceptTime E.chainHeight
          E.spendsCoinbase nSigOpsCost E.entrySize E.entryUsageSize
        let nSize := entry.txSize
        if nSigOpsCost > cfg.maxStandardTxSigOpsCost then
          .rejected ⟨.NONSTANDARD, "bad-txns-too-many-sigops"⟩ pool
        else if E.mempoolRejectFee > 0 ∧ nModifiedFees < E.mempoolRejectFee then
          .rejected ⟨.INSUFFICIENTFEE, "mempool min fee not met"⟩ pool
        else if fLimitFree = true ∧ nModifiedFees < feeRateGetFee cfg.minRelayFeePerK nSize then
          .rejected ⟨.INSUFFICIENTFEE, "min relay fee not met"⟩ pool
        else if nAbsurdFee ≠ 0 ∧ nFees > nAbsurdFee then
          .rejected ⟨.HIGHFEE, "absurdly-high-fee"⟩ pool
        else
          match CalculateMemPoolAncestors pool entry cfg.limitAncestorCountArg
            (cfg.limitAncestorSizeArg * 1000) cfg.limitDescendantCountArg
            (cfg.limitDescendantSizeArg * 1000) true with
          | (false, _) => .rejected ⟨.NONSTANDARD, "too-long-mempool-chain"⟩ pool
          | (true, setAncestors) =>
            if setAncestors.any (fun a => setConflicts.contains a) then
              .rejected ⟨.INVALID, "bad-txns-spends-conflicting-tx"⟩ pool
            else
              match pool.replacementChecks cfg.incrementalRelayFeePerK tx
                nModifiedFees nSize setConflicts with
              | Except.error r => .rejected r pool
              | Except.ok allConflicting =>
                let scriptVerifyFlags :=
                  if !cfg.chainRequireStandard then cfg.promiscuousFlagsArg
                  else STANDARD_SCRIPT_VERIFY_FLAGS
                if !E.checkInputs scriptVerifyFlags then
                  let corruption := !tx.hasWitness &&
                    E.checkInputs (Nat.land scriptVerifyFlags
                      (maskNot32 (Nat.lor SCRIPT_VERIFY_WITNESS SCRIPT_VERIFY_CLEANSTACK))) &&
                    !E.checkInputs (Nat.land scriptVerifyFlags (maskNot32 SCRIPT_VERIFY_CLEANSTACK))
                  .scriptFailed corruption pool
                else
                  let currentBlockScriptVerifyFlags : Nat := 0
                  if !E.checkInputsMempoolCache currentBlockScriptVerifyFlags then
                    if Nat.land (maskNot32 scriptVerifyFlags) currentBlockScriptVerifyFlags = 0 then
                      .fatalBug pool
                    else if !E.checkInputs MANDATORY_SCRIPT_VERIFY_FLAGS then
                      .fatalMandatory pool
                    else
                      commitTransaction E cfg pool tx entry setAncestors allConflicting
                        fOverrideMempoolLimit
                  else
                    commitTransaction E cfg pool tx entry setAncestors allConflicting
                      fOverrideMempoolLimit

/-! ## Helper definitions for concrete examples -/

/-- The empty pool. -/
def emptyPool : CTxMemPool :=
  { mapTx := [], mapDeltas := [], totalTxSize := 0, nTransactionsUpdated := 0
    rollingMinimumFeeRate := 0, blockSinceLastRollingFeeBump := false
    feeEstimatorAdds := [] }

/-- Entry builder for concrete examples: txid, inputs, output count, fee and
virtual size, with the aggregates at their constructor values. -/
def exEntry (txid : TxId) (vin : List CTxIn) (voutLen : Nat) (fee : Int)
    (size : Nat) : CTxMemPoolEntry :=
  mkCTxMemPoolEntry ⟨txid, vin, voutLen, false⟩ fee 0 0 false 0 size 0

/-- Example parent entry: txid 1 spends a confirmed coin, has child 2. -/
def c7e1 : CTxMemPoolEntry :=
  { exEntry 1 [⟨⟨50, 0⟩, 0⟩] 1 100 100 with
    children := [2], nCountWithDescendants := 2, nSizeWithDescendants := 250
    nModFeesWithDescendants := 300 }

/-- Example child entry: txid 2 spends output 0 of txid 1. -/
def c7e2 : CTxMemPoolEntry :=
  { exEntry 2 [⟨⟨1, 0⟩, 0⟩] 1 200 150 with
    parents := [1], nCountWithAncestors := 2, nSizeWithAncestors := 250
    nModFeesWithAncestors := 300 }

/-- A two-entry chain pool used by several witnesses. -/
def c7pool : CTxMemPool :=
  { emptyPool with mapTx := [c7e1, c7e2], totalTxSize := 250 }

/-! ## Size-accounting lemmas (claim C7) -/

/-- Sum of the entries' virtual sizes. -/
def sumTxSizes (l : List CTxMemPoolEntry) : Int :=
  (l.map (fun e => (e.txSize : Int))).sum

/-- Both the multiset of entry sizes and the size counter are untouched. -/
def SizePreserved (p q : CTxMemPool) : Prop :=
  sumTxSizes q.mapTx = sumTxSizes p.mapTx ∧ q.totalTxSize = p.totalTxSize

theorem sizePreserved_refl (p : CTxMemPool) : SizePreserved p p := ⟨rfl, rfl⟩

theorem sizePreserved_trans {p q r : CTxMemPool}
    (h1 : SizePreserved p q) (h2 : SizePreserved q r) : SizePreserved p r :=
  ⟨h2.1.trans h1.1, h2.2.trans h1.2⟩

theorem sumTxSizes_map_of_preserve (l : List CTxMemPoolEntry)
    (f : CTxMemPoolEntry → CTxMemPoolEntry) (h : ∀ e, (f e).txSize = e.txSize) :
    sumTxSizes (l.map f) = sumTxSizes l := by
  induction l with
  | nil => rfl
  | cons a t ih =>
    simp only [sumTxSizes, List.map_cons, List.sum_cons] at ih ⊢
    rw [h a, ih]

theorem modifyTx_sizePreserved (pool : CTxMemPool) (t : TxId)
    (f : CTxMemPoolEntry → CTxMemPoolEntry) (h : ∀ e, (f e).txSize = e.txSize) :
    SizePreserved pool (pool.modifyTx t f) := by
  refine ⟨?_, rfl⟩
  exact sumTxSizes_map_of_preserve _ _ (fun e => by
    by_cases hc : (e.tx.txid == t) = true <;> simp [hc, h])

theorem modifySet_sizePreserved (pool : CTxMemPool) (s : List TxId)
    (f : CTxMemPoolEntry → CTxMemPoolEntry) (h : ∀ e, (f e).txSize = e.txSize) :
    SizePreserved pool (pool.modifySet s f) := by
  refine ⟨?_, rfl⟩
  exact sumTxSizes_map_of_preserve _ _ (fun e => by
    by_cases hc : e.tx.txid ∈ s <;> simp [hc, h])

theorem updateChild_sizePreserved (pool : CTxMemPool) (a b : TxId) (add : Bool) :
    SizePreserved pool (pool.UpdateChild a b add) :=
  modifyTx_sizePreserved _ _ _ (fun _ => rfl)

theorem updateParent_sizePreserved (pool : CTxMemPool) (a b : TxId) (add : Bool) :
    SizePreserved pool (pool.UpdateParent a b add) :=
  modifyTx_sizePreserved _ _ _ (fun _ => rfl)

theorem foldl_sizePreserved {α : Type} (g : CTxMemPool → α → CTxMemPool)
    (l : List α) (h : ∀ p a, SizePreserved p (g p a)) (p : CTxMemPool) :
    SizePreserved p (l.foldl g p) := by
  induction l generalizing p with
  | nil => exact sizePreserved_refl p
  | cons a t ih => exact sizePreserved_trans (h p a) (ih _)

theorem updateAncestorsOf_sizePreserved (pool : CTxMemPool) (add : Bool)
    (it : TxId) (anc : List TxId) :
    SizePreserved pool (pool.UpdateAncestorsOf add it anc) := by
  have hfold : ∀ l : List TxId,
      SizePreserved pool (l.foldl (fun q piter => q.UpdateChild piter it add) pool) :=
    fun l => foldl_sizePreserved _ _ (fun q a => updateChild_sizePreserved q a it add) pool
  simp only [CTxMemPool.UpdateAncestorsOf]
  split
  · exact hfold _
  · exact sizePreserved_trans (hfold _) (modifySet_sizePreserved _ _ _ (fun x => rfl))

theorem updateEntryForAncestors_sizePreserved (pool : CTxMemPool) (it : TxId)
    (anc : List TxId) :
    SizePreserved pool (pool.UpdateEntryForAncestors it anc) := by
  unfold CTxMemPool.UpdateEntryForAncestors
  exact modifyTx_sizePreserved _ _ _ (fun _ => rfl)

theorem sumTxSizes_filter_of_find (l : List CTxMemPoolEntry) (t : TxId)
    (e : CTxMemPoolEntry)
    (hnd : (l.map (fun x => x.tx.txid)).Nodup)
    (hf : l.find? (fun x => x.tx.txid == t) = some e) :
    sumTxSizes (l.filter (fun x => !(x.tx.txid == t))) =
      sumTxSizes l - (e.txSize : Int) := by
  induction l with
  | nil => simp at hf
  | cons a rest ih =>
    simp only [List.map_cons, List.nodup_cons] at hnd
    by_cases ha : (a.tx.txid == t) = true
    · simp only [List.find?_cons, ha] at hf
      obtain rfl : a = e := by simpa using hf
      have hrest : rest.filter (fun x => !(x.tx.txid == t)) = rest := by
        apply List.filter_eq_self.mpr
        intro x hx
        have hne : x.tx.txid ≠ a.tx.txid := by
          intro hcontr
          exact hnd.1 (by rw [← hcontr]; exact List.mem_map_of_mem _ hx)
        have hat : a.tx.txid = t := by simpa using ha
        simp [hat ▸ hne]
      have hfc : List.filter (fun x => !(x.tx.txid == t)) (a :: rest) = rest := by
        simp [List.filter_cons, ha, hrest]
      rw [hfc]
      simp only [sumTxSizes, List.map_cons, List.sum_cons]
      ring
    · have ha' : (a.tx.txid == t) = false := by simpa using ha
      simp only [List.find?_cons, ha'] at hf
      have hrec := ih hnd.2 hf
      have hfc : List.filter (fun x => !(x.tx.txid == t)) (a :: rest) =
          a :: List.filter (fun x => !(x.tx.txid == t)) rest := by
        simp [List.filter_cons, ha']
      rw [hfc]
      simp only [sumTxSizes, List.map_cons, List.sum_cons] at hrec ⊢
      rw [hrec]
      ring

theorem addUnchecked_mapTx_sizes (pool : CTxMemPool) (hash : TxId)
    (entry : CTxMemPoolEntry) (anc : List TxId) (v : Bool) :
    sumTxSizes (pool.addUnchecked hash entry anc v).mapTx =
        (entry.txSize : Int) + sumTxSizes pool.mapTx ∧
      (pool.addUnchecked hash entry anc v).totalTxSize =
        pool.totalTxSize + (entry.txSize : Int) := by
  simp only [CTxMemPool.addUnchecked]
  set p0 : CTxMemPool := { pool with mapTx := entry :: pool.mapTx } with hp0def
  have hp0 : sumTxSizes p0.mapTx = (entry.txSize : Int) + sumTxSizes pool.mapTx := by
    simp [hp0def, sumTxSizes]
  have h01 : SizePreserved p0 (match pool.mapDeltas.find? (fun pr => pr.1 == hash) with
      | none => p0
      | some pr => if pr.2 ≠ 0 then p0.modifyTx hash (fun e => e.UpdateFeeDelta pr.2) else p0) := by
    cases pool.mapDeltas.find? (fun pr => pr.1 == hash) with
    | none => exact sizePreserved_refl _
    | some pr =>
      dsimp only
      by_cases hz : pr.2 ≠ 0
      · rw [if_pos hz]
        exact modifyTx_sizePreserved p0 hash (fun e => e.UpdateFeeDelta pr.2) (fun e => rfl)
      · rw [if_neg hz]
        exact sizePreserved_refl p0
  set p1 := (match pool.mapDeltas.find? (fun pr => pr.1 == hash) with
      | none => p0
      | some pr => if pr.2 ≠ 0 then p0.modifyTx hash (fun e => e.UpdateFeeDelta pr.2) else p0)
  have h12 : SizePreserved p1 (((entry.tx.vin.map (fun txin => txin.prevout.hash)).foldl
      (fun s h => setInsert h s) []).foldl (fun p phash =>
        match p.findTx phash with
        | none => p
        | some _ => p.UpdateParent hash phash true) p1) := by
    apply foldl_sizePreserved
    intro p a
    cases p.findTx a with
    | none => exact sizePreserved_refl p
    | some _ => exact updateParent_sizePreserved p hash a true
  set p2 := (((entry.tx.vin.map (fun txin => txin.prevout.hash)).foldl
      (fun s h => setInsert h s) []).foldl (fun p phash =>
        match p.findTx phash with
        | none => p
        | some _ => p.UpdateParent hash phash true) p1)
  have h23 : SizePreserved p2 (p2.UpdateAncestorsOf true hash anc) :=
    updateAncestorsOf_sizePreserved p2 true hash anc
  set p3 := p2.UpdateAncestorsOf true hash anc
  have h34 : SizePreserved p3 (p3.UpdateEntryForAncestors hash anc) :=
    updateEntryForAncestors_sizePreserved p3 hash anc
  have hall : SizePreserved p0 (p3.UpdateEntryForAncestors hash anc) :=
    sizePreserved_trans h01 (sizePreserved_trans h12 (sizePreserved_trans h23 h34))
  refine ⟨?_, ?_⟩
  · rw [hall.1, hp0]
  · rw [hall.2]

/-- C7: after an insertion via `addUnchecked` and after a removal via
`removeUnchecked` (of a present entry, in a pool with distinct txids),
`totalTxSize` again equals the sum of the entries' virtual sizes. -/
theorem C7_totalTxSize_invariant (pool : CTxMemPool)
    (hinv : pool.totalTxSize = sumTxSizes pool.mapTx) :
    (∀ hash entry anc v,
      (pool.addUnchecked hash entry anc v).totalTxSize =
        sumTxSizes (pool.addUnchecked hash entry anc v).mapTx) ∧
    (∀ it reason e, (pool.mapTx.map (fun x => x.tx.txid)).Nodup →
      pool.findTx it = some e →
      (pool.removeUnchecked it reason).totalTxSize =
        sumTxSizes (pool.removeUnchecked it reason).mapTx) := by
  constructor
  · intro hash entry anc v
    have h := addUnchecked_mapTx_sizes pool hash entry anc v
    rw [h.1, h.2, hinv]
    ring
  · intro it reason e hnd hf
    have hf' : pool.mapTx.find? (fun x => x.tx.txid == it) = some e := by
      simpa [CTxMemPool.findTx] using hf
    simp only [CTxMemPool.removeUnchecked, hf]
    rw [sumTxSizes_filter_of_find pool.mapTx it e hnd hf', hinv]

/-- Witness for C7 at a concrete two-entry pool. -/
theorem C7_totalTxSize_invariant_witness :
    ((c7pool.addUnchecked 3 (exEntry 3 [⟨⟨1, 0⟩, 0⟩] 1 50 30) [1] false).totalTxSize =
        sumTxSizes (c7pool.addUnchecked 3 (exEntry 3 [⟨⟨1, 0⟩, 0⟩] 1 50 30) [1] false).mapTx) ∧
    ((c7pool.removeUnchecked 2 .MANUAL).totalTxSize =
        sumTxSizes (c7pool.removeUnchecked 2 .MANUAL).mapTx) := by
  constructor
  · exact (C7_totalTxSize_invariant c7pool (by decide)).1 3 _ [1] false
  · exact (C7_totalTxSize_invariant c7pool (by decide)).2 2 .MANUAL
      c7e2 (by decide) (by decide)

/-! ## Claim C10 -/

/-- C10: `TransactionWithinChainLimit` returns true for every txid not in the
pool; for a present txid it returns true exactly when both the entry's
`countWithAncestors` and `countWithDescendants` are strictly below the
limit. -/
theorem C10_transactionWithinChainLimit (pool : CTxMemPool) (txid : TxId)
    (chainLimit : Nat) :
    (pool.findTx txid = none →
      pool.TransactionWithinChainLimit txid chainLimit = true) ∧
    (∀ it, pool.findTx txid = some it →
      (pool.TransactionWithinChainLimit txid chainLimit = true ↔
        it.nCountWithAncestors < (chainLimit : Int) ∧
          it.nCountWithDescendants < (chainLimit : Int))) := by
  constructor
  · intro h
    simp [CTxMemPool.TransactionWithinChainLimit, h]
  · intro it h
    simp [CTxMemPool.TransactionWithinChainLimit, h]

/-- Witness for C10: at a pool holding txid 2 with ancestor count 2 and
descendant count 1, the chain-limit predicate at limit 3 is true, and an
absent txid also yields true. -/
theorem C10_transactionWithinChainLimit_witness :
    c7pool.TransactionWithinChainLimit 2 3 = true ∧
      c7pool.TransactionWithinChainLimit 99 3 = true := by
  constructor
  · exact ((C10_transactionWithinChainLimit c7pool 2 3).2 c7e2 (by decide)).mpr (by decide)
  · exact (C10_transactionWithinChainLimit c7pool 99 3).1 (by decide)

/-! ## Claims C1 and C2: the script-check tail of the admission pipeline -/

/-- C1: for a candidate that passes the standard-flag script check, if the
re-check against the current block script-verify flags fails and the
divergence is not explained by promiscuous-policy flag overrides (no flag is
set in the block flags that is missing from the standard flags), the worker
surfaces the fatal `BUG` error and does not accept: the result is `fatalBug`
with the pool unchanged. -/
theorem C1_tip_flag_recheck_fatal (E : Externals) (cfg : Config) (pool : CTxMemPool)
    (tx : CTransaction) (fLimitFree : Bool) (nAcceptTime : Int)
    (fOverride : Bool) (nAbsurdFee : Int)
    (setConflicts setAncestors allConflicting : List TxId)
    (hCT : E.checkTransactionOk = true)
    (hCB : E.isCoinBase = false)
    (hWitGate : (!cfg.prematureWitnessArg && tx.hasWitness && !E.witnessEnabled) = false)
    (hStd : (cfg.fRequireStandard && !E.isStandardOk) = false)
    (hFinal : E.checkFinalOk = true)
    (hDup : pool.existsTx tx.txid = false)
    (hConf : pool.detectConflicts cfg.fEnableReplacement tx = Except.ok setConflicts)
    (hHave : (tx.vin.any (fun txin => !E.viewHaveCoin txin.prevout)) = false)
    (hSeq : E.checkSequenceLocksOk = true)
    (hInStd : (cfg.fRequireStandard && !E.areInputsStandardOk) = false)
    (hWitStd : (tx.hasWitness && cfg.fRequireStandard && !E.isWitnessStandardOk) = false)
    (hSigOps : ¬ E.nSigOpsCost > cfg.maxStandardTxSigOpsCost)
    (hMinFee : ¬ (E.mempoolRejectFee > 0 ∧
      pool.ApplyDelta tx.txid (E.nValueIn - E.nValueOut) < E.mempoolRejectFee))
    (hRelay : ¬ (fLimitFree = true ∧
      pool.ApplyDelta tx.txid (E.nValueIn - E.nValueOut) <
        feeRateGetFee cfg.minRelayFeePerK E.entrySize))
    (hAbsurd : ¬ (nAbsurdFee ≠ 0 ∧ E.nValueIn - E.nValueOut > nAbsurdFee))
    (hCMPA : CalculateMemPoolAncestors pool
      (mkCTxMemPoolEntry tx (E.nValueIn - E.nValueOut) nAcceptTime E.chainHeight
        E.spendsCoinbase E.nSigOpsCost E.entrySize E.entryUsageSize)
      cfg.limitAncestorCountArg (cfg.limitAncestorSizeArg * 1000)
      cfg.limitDescendantCountArg (cfg.limitDescendantSizeArg * 1000) true =
      (true, setAncestors))
    (hIntersect : (setAncestors.any (fun a => setConflicts.contains a)) = false)
    (hRepl : pool.replacementChecks cfg.incrementalRelayFeePerK tx
      (pool.ApplyDelta tx.txid (E.nValueIn - E.nValueOut)) E.entrySize setConflicts =
      Except.ok allConflicting)
    (hScriptStd : E.checkInputs (if !cfg.chainRequireStandard then cfg.promiscuousFlagsArg
      else STANDARD_SCRIPT_VERIFY_FLAGS) = true)
    (hTip : E.checkInputsMempoolCache 0 = false)
    (hMask : Nat.land (maskNot32 (if !cfg.chainRequireStandard then cfg.promiscuousFlagsArg
      else STANDARD_SCRIPT_VERIFY_FLAGS)) 0 = 0) :
    AcceptToMemoryPoolWorker E cfg pool tx fLimitFree nAcceptTime fOverride nAbsurdFee =
      ATMPResult.fatalBug pool := by
  simp only [AcceptToMemoryPoolWorker, mkCTxMemPoolEntry, hCT, hCB, hWitGate, hStd,
    hFinal, hDup, hConf, hHave, hSeq, hInStd, hWitStd, hSigOps, hMinFee, hRelay,
    hAbsurd, hIntersect, hRepl, hScriptStd, hTip, hMask, Bool.not_true, Bool.not_false,
    if_false, if_true, Bool.false_eq_true, reduceIte]
  rw [show (CalculateMemPoolAncestors pool
      { tx := tx, nFee := E.nValueIn - E.nValueOut, nTime := nAcceptTime,
        entryHeight := E.chainHeight, spendsCoinbase := E.spendsCoinbase,
        sigOpCost := E.nSigOpsCost, txSize := E.entrySize, nUsageSize := E.entryUsageSize,
        feeDelta := 0, nCountWithDescendants := 1, nSizeWithDescendants := (E.entrySize : Int),
        nModFeesWithDescendants := E.nValueIn - E.nValueOut, nCountWithAncestors := 1,
        nSizeWithAncestors := (E.entrySize : Int),
        nModFeesWithAncestors := E.nValueIn - E.nValueOut,
        nSigOpCostWithAncestors := E.nSigOpsCost, parents := [], children := [] }
      cfg.limitAncestorCountArg (cfg.limitAncestorSizeArg * 1000)
      cfg.limitDescendantCountArg (cfg.limitDescendantSizeArg * 1000) true) =
      (true, setAncestors) from hCMPA]
  simp only [hIntersect, hRepl, hScriptStd, hTip, hMask, Bool.not_true, Bool.not_false,
    Bool.false_eq_true, if_false, if_true, reduceIte]

/-- Candidate transaction for the C1/C2 worked runs: txid 100, one input
spending a confirmed coin, one output, no witness. -/
def c1tx : CTransaction := ⟨100, [⟨⟨50, 0⟩, 0⟩], 1, false⟩

/-- Default-flavoured configuration for the worked runs. -/
def c1cfg : Config :=
  { fRequireStandard := true, chainRequireStandard := true, fEnableReplacement := true
    prematureWitnessArg := false, promiscuousFlagsArg := STANDARD_SCRIPT_VERIFY_FLAGS
    limitAncestorCountArg := 25, limitAncestorSizeArg := 101
    limitDescendantCountArg := 25, limitDescendantSizeArg := 101
    maxMempoolArg := 300, mempoolExpiryArg := 336
    minRelayFeePerK := 1000, incrementalRelayFeePerK := 1000
    maxStandardTxSigOpsCost := 16000 }

/-- Oracles for the C1 run: everything passes except the re-check against the
current block flags. -/
def c1E : Externals :=
  { checkTransactionOk := true, isCoinBase := false, witnessEnabled := true
    isStandardOk := true, standardReason := "", checkFinalOk := true
    viewHaveCoin := fun _ => true, cacheHaveCoin := fun _ => false
    checkSequenceLocksOk := true, areInputsStandardOk := true
    isWitnessStandardOk := true, nSigOpsCost := 4, nValueIn := 5000, nValueOut := 4000
    spendsCoinbase := false, entrySize := 250, entryUsageSize := 0, chainHeight := 100
    mempoolRejectFee := 0, checkInputs := fun _ => true
    checkInputsMempoolCache := fun _ => false, isCurrentForFeeEstimation := true
    now := 0, usage := fun _ => 0 }

/-- Witness for C1: a concrete run hitting the fatal branch. -/
theorem C1_tip_flag_recheck_fatal_witness :
    AcceptToMemoryPoolWorker c1E c1cfg emptyPool c1tx true 0 false 0 =
      ATMPResult.fatalBug emptyPool :=
  C1_tip_flag_recheck_fatal c1E c1cfg emptyPool c1tx true 0 false 0 [] [] []
    rfl rfl rfl rfl rfl rfl rfl rfl rfl rfl rfl
    (by decide) (by decide) (by decide) (by decide) rfl rfl rfl rfl rfl rfl

/-- Oracles for the C2 run: like C1 but the reconcile re-check passes. -/
def c2E : Externals :=
  { c1E with checkInputsMempoolCache := fun _ => true }

/-- Project the estimator log out of an accepted worker outcome. -/
def ATMPResult.estimatorLog : ATMPResult → Option (List (TxId × Bool))
  | .accepted p => some p.feeEstimatorAdds
  | _ => none

/-- C2: the admission commit informs the fee estimator with
`validForFeeEstimation = false` even when the documented predicate —
not a replacement, node current, no in-pool inputs — is true.  At this
concrete admission (no conflicts, current node, no in-pool inputs) the
predicate holds, yet the recorded estimator call carries `false`. -/
theorem C2_fee_estimation_marker_forced_false :
    validForFeeEstimationSpec c2E emptyPool false c1tx = true ∧
    (AcceptToMemoryPoolWorker c2E c1cfg emptyPool c1tx true 0 false 0).estimatorLog =
      some [(100, false)] := by
  constructor
  · decide
  · decide

/-! ## Claim C4: conflict detection and BIP 125 opt-in -/

/-- Membership in a `setInsert`-built set list. -/
theorem mem_setInsert (t x : TxId) (s : List TxId) :
    t ∈ setInsert x s ↔ t = x ∨ t ∈ s := by
  induction s with
  | nil => simp [setInsert]
  | cons a as ih =>
    simp only [setInsert]
    by_cases h1 : x < a
    · simp only [if_pos h1, List.mem_cons]
    · by_cases h2 : x = a
      · simp only [if_neg h1, if_pos h2, List.mem_cons]
        subst h2
        tauto
      · simp only [if_neg h1, if_neg h2, List.mem_cons, ih]
        tauto

/-- The source's opt-in test: some input of the conflicting transaction has
sequence ≤ `MAX_BIP125_RBF_SEQUENCE`. -/
def optInRBF (C : CTxMemPoolEntry) : Bool :=
  C.tx.vin.any (fun ti => decide (ti.nSequence ≤ MAX_BIP125_RBF_SEQUENCE))

/-- WF: the pool holds no two entries with the same txid (invariant 6). -/
def CTxMemPool.TxidsNodup (pool : CTxMemPool) : Prop :=
  (pool.mapTx.map (fun e => e.tx.txid)).Nodup

theorem txid_inj_of_nodup {pool : CTxMemPool} (hnd : pool.TxidsNodup)
    {e1 e2 : CTxMemPoolEntry} (h1 : e1 ∈ pool.mapTx) (h2 : e2 ∈ pool.mapTx)
    (ht : e1.tx.txid = e2.tx.txid) : e1 = e2 :=
  List.inj_on_of_nodup_map hnd h1 h2 ht

theorem mapNextTxFind_mem {pool : CTxMemPool} {op : COutPoint} {C : CTxMemPoolEntry}
    (h : pool.mapNextTxFind op = some C) : C ∈ pool.mapTx :=
  List.mem_of_find?_eq_some h

/-- `Except.ok x >>= f` computes `f x`. -/
@[simp] theorem exceptOkBind {e a b : Type} (x : a) (f : a → Except e b) :
    (Except.ok x : Except e a) >>= f = f x := rfl

/-- `Except.error r >>= f` short-circuits. -/
@[simp] theorem exceptErrBind {e a b : Type} (r : e) (f : a → Except e b) :
    (Except.error r : Except e a) >>= f = Except.error r := rfl

/-- The per-input step of the conflict-detection fold with replacement
enabled, named for the proofs below. -/
def conflictStep (pool : CTxMemPool) (setConflicts : List TxId) (txin : CTxIn) :
    Except Rejection (List TxId) :=
  match pool.mapNextTxFind txin.prevout with
  | none => Except.ok setConflicts
  | some confE =>
    if setConflicts.contains confE.tx.txid then Except.ok setConflicts
    else
      if !(confE.tx.vin.any (fun ti => decide (ti.nSequence ≤ MAX_BIP125_RBF_SEQUENCE))) then
        Except.error ⟨.DUPLICATE, "txn-mempool-conflict"⟩
      else Except.ok (setInsert confE.tx.txid setConflicts)

theorem detectConflicts_enabled (pool : CTxMemPool) (tx : CTransaction) :
    pool.detectConflicts true tx = tx.vin.foldlM (conflictStep pool) [] := rfl

/-- Branch values of `conflictStep`. -/
theorem conflictStep_none {pool : CTxMemPool} {acc : List TxId} {txin : CTxIn}
    (hfind : pool.mapNextTxFind txin.prevout = none) :
    conflictStep pool acc txin = Except.ok acc := by
  unfold conflictStep
  rw [hfind]

theorem conflictStep_mem {pool : CTxMemPool} {acc : List TxId} {txin : CTxIn}
    {C0 : CTxMemPoolEntry} (hfind : pool.mapNextTxFind txin.prevout = some C0)
    (hmem : acc.contains C0.tx.txid = true) :
    conflictStep pool acc txin = Except.ok acc := by
  unfold conflictStep
  rw [hfind]
  dsimp only
  rw [if_pos hmem]

theorem conflictStep_optin {pool : CTxMemPool} {acc : List TxId} {txin : CTxIn}
    {C0 : CTxMemPoolEntry} (hfind : pool.mapNextTxFind txin.prevout = some C0)
    (hmem : acc.contains C0.tx.txid = false)
    (hopt : (C0.tx.vin.any (fun ti =>
      decide (ti.nSequence ≤ MAX_BIP125_RBF_SEQUENCE))) = true) :
    conflictStep pool acc txin = Except.ok (setInsert C0.tx.txid acc) := by
  unfold conflictStep
  rw [hfind]
  dsimp only
  rw [if_neg (by rw [hmem]; simp), if_neg (by rw [hopt]; simp)]

theorem conflictStep_optout {pool : CTxMemPool} {acc : List TxId} {txin : CTxIn}
    {C0 : CTxMemPoolEntry} (hfind : pool.mapNextTxFind txin.prevout = some C0)
    (hmem : acc.contains C0.tx.txid = false)
    (hopt : (C0.tx.vin.any (fun ti =>
      decide (ti.nSequence ≤ MAX_BIP125_RBF_SEQUENCE))) = false) :
    conflictStep pool acc txin = Except.error ⟨.DUPLICATE, "txn-mempool-conflict"⟩ := by
  unfold conflictStep
  rw [hfind]
  dsimp only
  rw [if_neg (by rw [hmem]; simp), if_pos (by rw [hopt]; simp)]

/-- With replacement enabled, the conflict-detection fold rejects whenever
some input's in-pool spender fully opts out, provided the accumulated set
only holds opt-in conflicts. -/
theorem detectConflicts_fold_optout (pool : CTxMemPool) (hnd : pool.TxidsNodup)
    (vin : List CTxIn) (acc : List TxId)
    (hacc : ∀ t ∈ acc, ∃ C ∈ pool.mapTx, C.tx.txid = t ∧ optInRBF C = true)
    (hbad : ∃ txin ∈ vin, ∃ C, pool.mapNextTxFind txin.prevout = some C ∧
      optInRBF C = false) :
    vin.foldlM (conflictStep pool) acc =
      Except.error ⟨.DUPLICATE, "txn-mempool-conflict"⟩ := by
  induction vin generalizing acc with
  | nil => obtain ⟨txin, hmem, _⟩ := hbad; simp at hmem
  | cons txin rest ih =>
    rw [List.foldlM_cons]
    cases hfind : pool.mapNextTxFind txin.prevout with
    | none =>
      have hbad' : ∃ t ∈ rest, ∃ C, pool.mapNextTxFind t.prevout = some C ∧
          optInRBF C = false := by
        obtain ⟨ti, hti, C, hC, hCopt⟩ := hbad
        rcases List.mem_cons.mp hti with rfl | hti'
        · rw [hfind] at hC; cases hC
        · exact ⟨ti, hti', C, hC, hCopt⟩
      rw [conflictStep_none hfind, exceptOkBind]
      exact ih acc hacc hbad'
    | some C0 =>
      by_cases hmem : acc.contains C0.tx.txid
      · have hC0in : optInRBF C0 = true := by
          obtain ⟨C1, hC1mem, hC1t, hC1opt⟩ := hacc C0.tx.txid (by simpa using hmem)
          have := txid_inj_of_nodup hnd hC1mem (mapNextTxFind_mem hfind) hC1t
          rwa [this] at hC1opt
        have hbad' : ∃ t ∈ rest, ∃ C, pool.mapNextTxFind t.prevout = some C ∧
            optInRBF C = false := by
          obtain ⟨ti, hti, C, hC, hCopt⟩ := hbad
          rcases List.mem_cons.mp hti with rfl | hti'
          · rw [hfind] at hC
            cases hC
            rw [hC0in] at hCopt
            cases hCopt
          · exact ⟨ti, hti', C, hC, hCopt⟩
        rw [conflictStep_mem hfind hmem, exceptOkBind]
        exact ih acc hacc hbad'
      · have hmemf : acc.contains C0.tx.txid = false := by
          cases h : acc.contains C0.tx.txid
          · rfl
          · exact absurd h hmem
        by_cases hopt : optInRBF C0 = true
        · have hopt' : (C0.tx.vin.any (fun ti =>
              decide (ti.nSequence ≤ MAX_BIP125_RBF_SEQUENCE))) = true := hopt
          have hbad' : ∃ t ∈ rest, ∃ C, pool.mapNextTxFind t.prevout = some C ∧
              optInRBF C = false := by
            obtain ⟨ti, hti, C, hC, hCopt⟩ := hbad
            rcases List.mem_cons.mp hti with rfl | hti'
            · rw [hfind] at hC
              cases hC
              rw [hopt] at hCopt
              cases hCopt
            · exact ⟨ti, hti', C, hC, hCopt⟩
          have hacc' : ∀ t ∈ setInsert C0.tx.txid acc,
              ∃ C ∈ pool.mapTx, C.tx.txid = t ∧ optInRBF C = true := by
            intro t ht
            rcases (mem_setInsert t C0.tx.txid acc).mp ht with rfl | ht'
            · exact ⟨C0, mapNextTxFind_mem hfind, rfl, hopt⟩
            · exact hacc t ht'
          rw [conflictStep_optin hfind hmemf hopt', exceptOkBind]
          exact ih _ hacc' hbad'
        · have hopt' : (C0.tx.vin.any (fun ti =>
              decide (ti.nSequence ≤ MAX_BIP125_RBF_SEQUENCE))) = false := by
            cases h : optInRBF C0
            · exact h
            · exact absurd h hopt
          rw [conflictStep_optout hfind hmemf hopt', exceptErrBind]

/-- With replacement enabled and every encountered conflict opting in, the
conflict-detection fold succeeds and remembers exactly the spenders' txids on
top of the accumulated set. -/
theorem detectConflicts_fold_optin (pool : CTxMemPool)
    (vin : List CTxIn) (acc : List TxId)
    (hall : ∀ txin ∈ vin, ∀ C, pool.mapNextTxFind txin.prevout = some C →
      optInRBF C = true) :
    ∃ S, vin.foldlM (conflictStep pool) acc = Except.ok S ∧
      ∀ t, t ∈ S ↔ (t ∈ acc ∨ ∃ txin ∈ vin, ∃ C,
        pool.mapNextTxFind txin.prevout = some C ∧ C.tx.txid = t) := by
  induction vin generalizing acc with
  | nil =>
    refine ⟨acc, rfl, ?_⟩
    intro t
    simp
  | cons txin rest ih =>
    rw [List.foldlM_cons]
    cases hfind : pool.mapNextTxFind txin.prevout with
    | none =>
      obtain ⟨S, hS, hmemS⟩ := ih acc (fun ti hti => hall ti (List.mem_cons_of_mem _ hti))
      rw [conflictStep_none hfind, exceptOkBind]
      refine ⟨S, hS, ?_⟩
      intro t
      rw [hmemS t]
      constructor
      · rintro (h | ⟨ti, hti, C, hC, ht⟩)
        · exact Or.inl h
        · exact Or.inr ⟨ti, List.mem_cons_of_mem _ hti, C, hC, ht⟩
      · rintro (h | ⟨ti, hti, C, hC, ht⟩)
        · exact Or.inl h
        · rcases List.mem_cons.mp hti with rfl | hti'
          · rw [hfind] at hC; cases hC
          · exact Or.inr ⟨ti, hti', C, hC, ht⟩
    | some C0 =>
      have hC0 : optInRBF C0 = true := hall txin (List.mem_cons_self _ _) C0 hfind
      have hC0' : (C0.tx.vin.any (fun ti =>
          decide (ti.nSequence ≤ MAX_BIP125_RBF_SEQUENCE))) = true := hC0
      by_cases hmem : acc.contains C0.tx.txid
      · obtain ⟨S, hS, hmemS⟩ := ih acc (fun ti hti => hall ti (List.mem_cons_of_mem _ hti))
        rw [conflictStep_mem hfind hmem, exceptOkBind]
        refine ⟨S, hS, ?_⟩
        intro t
        rw [hmemS t]
        constructor
        · rintro (h | ⟨ti, hti, C, hC, ht⟩)
          · exact Or.inl h
          · exact Or.inr ⟨ti, List.mem_cons_of_mem _ hti, C, hC, ht⟩
        · rintro (h | ⟨ti, hti, C, hC, ht⟩)
          · exact Or.inl h
          · rcases List.mem_cons.mp hti with rfl | hti'
            · rw [hfind] at hC
              cases hC
              exact Or.inl (by rw [← ht]; simpa using hmem)
            · exact Or.inr ⟨ti, hti', C, hC, ht⟩
      · obtain ⟨S, hS, hmemS⟩ := ih (setInsert C0.tx.txid acc)
          (fun ti hti => hall ti (List.mem_cons_of_mem _ hti))
        have hmemf : acc.contains C0.tx.txid = false := by
          cases h : acc.contains C0.tx.txid
          · rfl
          · exact absurd h hmem
        rw [conflictStep_optin hfind hmemf hC0', exceptOkBind]
        refine ⟨S, hS, ?_⟩
        intro t
        rw [hmemS t, mem_setInsert]
        constructor
        · rintro ((rfl | h) | ⟨ti, hti, C, hC, ht⟩)
          · exact Or.inr ⟨txin, List.mem_cons_self _ _, C0, hfind, rfl⟩
          · exact Or.inl h
          · exact Or.inr ⟨ti, List.mem_cons_of_mem _ hti, C, hC, ht⟩
        · rintro (h | ⟨ti, hti, C, hC, ht⟩)
          · exact Or.inl (Or.inr h)
          · rcases List.mem_cons.mp hti with rfl | hti'
            · rw [hfind] at hC
              cases hC
              exact Or.inl (Or.inl ht.symm)
            · exact Or.inr ⟨ti, hti', C, hC, ht⟩

/-- C4 (amended): with replacement enabled and distinct txids, (a) if some
input's in-pool spender C has *no* input with sequence ≤
`MAX_BIP125_RBF_SEQUENCE` (full opt-out), the worker — its earlier steps
passing — rejects `DUPLICATE "txn-mempool-conflict"` with the pool unchanged;
(b) if every encountered conflict has *some* such input, conflict detection
succeeds and remembers exactly the conflicting txids, and admission proceeds
past this step. -/
theorem C4_conflict_detection_amended (E : Externals) (cfg : Config)
    (pool : CTxMemPool) (tx : CTransaction) (fLimitFree : Bool) (nAcceptTime : Int)
    (fOverride : Bool) (nAbsurdFee : Int)
    (hnd : pool.TxidsNodup)
    (hRepl : cfg.fEnableReplacement = true)
    (hCT : E.checkTransactionOk = true)
    (hCB : E.isCoinBase = false)
    (hWitGate : (!cfg.prematureWitnessArg && tx.hasWitness && !E.witnessEnabled) = false)
    (hStd : (cfg.fRequireStandard && !E.isStandardOk) = false)
    (hFinal : E.checkFinalOk = true)
    (hDup : pool.existsTx tx.txid = false) :
    ((∃ txin ∈ tx.vin, ∃ C, pool.mapNextTxFind txin.prevout = some C ∧
        optInRBF C = false) →
      AcceptToMemoryPoolWorker E cfg pool tx fLimitFree nAcceptTime fOverride nAbsurdFee =
        ATMPResult.rejected ⟨.DUPLICATE, "txn-mempool-conflict"⟩ pool) ∧
    ((∀ txin ∈ tx.vin, ∀ C, pool.mapNextTxFind txin.prevout = some C →
        optInRBF C = true) →
      ∃ S, pool.detectConflicts cfg.fEnableReplacement tx = Except.ok S ∧
        ∀ t, t ∈ S ↔ ∃ txin ∈ tx.vin, ∃ C,
          pool.mapNextTxFind txin.prevout = some C ∧ C.tx.txid = t) := by
  constructor
  · intro hbad
    have hdc : pool.detectConflicts cfg.fEnableReplacement tx =
        Except.error ⟨.DUPLICATE, "txn-mempool-conflict"⟩ := by
      rw [hRepl, detectConflicts_enabled]
      exact detectConflicts_fold_optout pool hnd tx.vin [] (by simp) hbad
    simp only [AcceptToMemoryPoolWorker, hCT, hCB, hWitGate, hStd, hFinal, hDup, hdc,
      Bool.not_true, Bool.not_false, Bool.false_eq_true, if_false, if_true, reduceIte]
  · intro hall
    rw [hRepl, detectConflicts_enabled]
    obtain ⟨S, hS, hmemS⟩ := detectConflicts_fold_optin pool tx.vin [] hall
    refine ⟨S, hS, ?_⟩
    intro t
    rw [hmemS t]
    simp

/-- Conflicting in-pool entry for the C4 counterexample: txid 1 spends two
confirmed coins with sequences 0 and `0xffffffff` — a mixed signal, so *not
every* input has sequence ≤ `MAX_BIP125_RBF_SEQUENCE`, yet the first input
signals opt-in. -/
def c4A : CTxMemPoolEntry :=
  mkCTxMemPoolEntry ⟨1, [⟨⟨50, 0⟩, 0⟩, ⟨⟨51, 0⟩, 0xffffffff⟩], 1, false⟩ 1000 0 0 false 0 250 0

/-- Pool holding only `c4A`. -/
def c4pool : CTxMemPool := { emptyPool with mapTx := [c4A], totalTxSize := 250 }

/-- Replacement candidate for the C4 counterexample: txid 2, reusing `c4A`'s
first input. -/
def c4btx : CTransaction := ⟨2, [⟨⟨50, 0⟩, 0⟩], 1, false⟩

/-- Oracles for the C4/C3 runs: all external checks pass, candidate value in
2000 over value out 0. -/
def c4E : Externals :=
  { c1E with nValueIn := 2000, nValueOut := 0, checkInputsMempoolCache := fun _ => true }

/-- Accepted projection. -/
def ATMPResult.isAccepted : ATMPResult → Bool
  | .accepted _ => true
  | _ => false

/-- In-pool entry that fully opts out: its only input has sequence
`0xffffffff`. -/
def c4optA : CTxMemPoolEntry :=
  mkCTxMemPoolEntry ⟨1, [⟨⟨50, 0⟩, 0xffffffff⟩], 1, false⟩ 1000 0 0 false 0 250 0

/-- Pool holding only `c4optA`. -/
def c4optPool : CTxMemPool := { emptyPool with mapTx := [c4optA], totalTxSize := 250 }

/-- Witness for the amended C4: the spec's opt-out boundary scenario — the
conflict's single input has sequence `0xffffffff`, so the candidate reusing
its input is rejected `DUPLICATE "txn-mempool-conflict"` with the pool
unchanged. -/
theorem C4_conflict_detection_amended_witness :
    AcceptToMemoryPoolWorker c4E c1cfg c4optPool c4btx true 0 false 0 =
      ATMPResult.rejected ⟨.DUPLICATE, "txn-mempool-conflict"⟩ c4optPool :=
  (C4_conflict_detection_amended c4E c1cfg c4optPool c4btx true 0 false 0
    (by unfold CTxMemPool.TxidsNodup; decide) rfl rfl rfl rfl rfl rfl rfl).1
    ⟨⟨⟨50, 0⟩, 0⟩, by decide, c4optA, by decide, by decide⟩

/-- C4 counterexample: `c4A` spends the candidate's input and *not every*
input of `c4A` has sequence ≤ `MAX_BIP125_RBF_SEQUENCE` (its second input is
`0xffffffff`), so the claim as stated predicts `DUPLICATE
"txn-mempool-conflict"`; the code instead treats `c4A` as opting in (its
first input signals), remembers it, and accepts the replacement. -/
theorem C4_counterexample :
    (c4A.tx.vin.all (fun ti => decide (ti.nSequence ≤ MAX_BIP125_RBF_SEQUENCE))) = false ∧
    c4pool.mapNextTxFind ⟨50, 0⟩ = some c4A ∧
    c4pool.detectConflicts true c4btx = Except.ok [1] ∧
    (AcceptToMemoryPoolWorker c4E c1cfg c4pool c4btx true 0 false 0).isAccepted = true := by
  refine ⟨by decide, by decide, by rfl, by decide⟩

/-! ## Claim C3: the incremental-relay-fee rule of replacement arbitration -/

/-- The pure accumulation of the per-conflict loop (the values it computes
when no feerate check fires). -/
def replConflictStepPure (pool : CTxMemPool)
    (acc : List TxId × List TxId × Int) (hashConflicting : TxId) :
    List TxId × List TxId × Int :=
  match pool.findTx hashConflicting with
  | none => acc
  | some mi =>
    (setInsert hashConflicting acc.1,
      mi.tx.vin.foldl (fun s ti => setInsert ti.prevout.hash s) acc.2.1,
      acc.2.2 + mi.nCountWithDescendants)

/-- The `(setIterConflicting, setConflictsParents, nConflictingCount)` triple
of the arbitration, as a pure value. -/
def replStep1Pure (pool : CTxMemPool) (setConflicts : List TxId) :
    List TxId × List TxId × Int :=
  setConflicts.foldl (replConflictStepPure pool) ([], [], 0)

/-- The evicted set `allConflicting`: the directly conflicting in-pool
transactions together with all their descendants. -/
def allConflictingPure (pool : CTxMemPool) (setConflicts : List TxId) : List TxId :=
  (replStep1Pure pool setConflicts).1.foldl
    (fun acc it => pool.CalculateDescendants it acc) []

/-- `conflictFees`: the sum of modified fees over `allConflicting`. -/
def conflictFeesPure (pool : CTxMemPool) (setConflicts : List TxId) : Int :=
  (allConflictingPure pool setConflicts).foldl (fun s it =>
    match pool.findTx it with
    | none => s
    | some e => s + e.GetModifiedFee) 0

/-- The per-conflict loop either rejects with `INSUFFICIENTFEE "insufficient
fee"` or returns the pure accumulation. -/
theorem replStep1_cases (pool : CTxMemPool) (newFeeRate : Int)
    (l : List TxId) (acc : List TxId × List TxId × Int) :
    l.foldlM (replConflictStep pool newFeeRate) acc =
        Except.error ⟨.INSUFFICIENTFEE, "insufficient fee"⟩ ∨
      l.foldlM (replConflictStep pool newFeeRate) acc =
        Except.ok (l.foldl (replConflictStepPure pool) acc) := by
  induction l generalizing acc with
  | nil => right; rfl
  | cons h rest ih =>
    rw [List.foldlM_cons, List.foldl_cons]
    cases hfind : pool.findTx h with
    | none =>
      rw [show replConflictStep pool newFeeRate acc h = Except.ok acc from by
          unfold replConflictStep; rw [hfind],
        exceptOkBind,
        show replConflictStepPure pool acc h = acc from by
          unfold replConflictStepPure; rw [hfind]]
      exact ih acc
    | some mi =>
      by_cases hfr : newFeeRate ≤ feeRatePerK mi.GetModifiedFee (mi.txSize : Int)
      · left
        rw [show replConflictStep pool newFeeRate acc h =
            Except.error ⟨.INSUFFICIENTFEE, "insufficient fee"⟩ from by
          unfold replConflictStep; rw [hfind]; dsimp only; rw [if_pos hfr], exceptErrBind]
      · rw [show replConflictStep pool newFeeRate acc h = Except.ok
            (setInsert h acc.1,
              mi.tx.vin.foldl (fun s ti => setInsert ti.prevout.hash s) acc.2.1,
              acc.2.2 + mi.nCountWithDescendants) from by
            unfold replConflictStep; rw [hfind]; dsimp only; rw [if_neg hfr],
          exceptOkBind,
          show replConflictStepPure pool acc h =
            (setInsert h acc.1,
              mi.tx.vin.foldl (fun s ti => setInsert ti.prevout.hash s) acc.2.1,
              acc.2.2 + mi.nCountWithDescendants) from by
            unfold replConflictStepPure; rw [hfind]]
        exact ih _

/-- Whenever the conflict set is non-empty and the fee delta over the
conflicts' package is below the incremental relay fee for the candidate's
size, the arbitration rejects; when additionally the conflicting descendant
count is within 100 and no candidate input adds a new unconfirmed parent,
the rejection is exactly `INSUFFICIENTFEE "insufficient fee"`. -/
theorem replacementChecks_delta_reject (pool : CTxMemPool) (incRelayPerK : Int)
    (tx : CTransaction) (nModifiedFees : Int) (nSize : Nat) (setConflicts : List TxId)
    (hne : setConflicts.isEmpty = false)
    (hdelta : nModifiedFees - conflictFeesPure pool setConflicts <
      feeRateGetFee incRelayPerK nSize) :
    (∃ r, pool.replacementChecks incRelayPerK tx nModifiedFees nSize setConflicts =
      Except.error r) ∧
    ((replStep1Pure pool setConflicts).2.2 ≤ 100 →
      (tx.vin.any (fun txin =>
        !((replStep1Pure pool setConflicts).2.1.contains txin.prevout.hash) &&
          (pool.findTx txin.prevout.hash).isSome)) = false →
      pool.replacementChecks incRelayPerK tx nModifiedFees nSize setConflicts =
        Except.error ⟨.INSUFFICIENTFEE, "insufficient fee"⟩) := by
  unfold CTxMemPool.replacementChecks
  rw [hne]
  simp only [Bool.false_eq_true, if_false]
  cases replStep1_cases pool (feeRatePerK nModifiedFees (nSize : Int)) setConflicts
    ([], [], 0) with
  | inl herr =>
    rw [herr]
    exact ⟨⟨_, rfl⟩, fun _ _ => rfl⟩
  | inr hok =>
    rw [hok]
    have hpure : setConflicts.foldl (replConflictStepPure pool) ([], [], 0) =
        replStep1Pure pool setConflicts := rfl
    rw [hpure]
    dsimp only
    have hcf : (List.foldl (fun s it =>
        match pool.findTx it with
        | none => s
        | some e => s + e.GetModifiedFee) 0
        (List.foldl (fun acc it => pool.CalculateDescendants it acc) []
          (replStep1Pure pool setConflicts).1)) =
        conflictFeesPure pool setConflicts := rfl
    rw [hcf]
    by_cases hcount : (replStep1Pure pool setConflicts).2.2 ≤ 100
    · rw [if_pos hcount]
      by_cases hadds : (tx.vin.any (fun txin =>
          !((replStep1Pure pool setConflicts).2.1.contains txin.prevout.hash) &&
            (pool.findTx txin.prevout.hash).isSome)) = true
      · rw [if_pos hadds]
        refine ⟨⟨_, rfl⟩, fun _ h2 => ?_⟩
        rw [hadds] at h2
        cases h2
      · rw [if_neg hadds]
        by_cases hfees : nModifiedFees < conflictFeesPure pool setConflicts
        · rw [if_pos hfees]
          exact ⟨⟨_, rfl⟩, fun _ _ => rfl⟩
        · rw [if_neg hfees, if_pos hdelta]
          exact ⟨⟨_, rfl⟩, fun _ _ => rfl⟩
    · rw [if_neg hcount]
      refine ⟨⟨_, rfl⟩, fun h1 _ => absurd h1 hcount⟩

/-- C3 (amended): for a candidate whose conflict set is non-empty, whenever
`modifiedFee − conflictFees < incrementalRelayFee.GetFee(virtualSize)` the
worker — its earlier steps passing — rejects the candidate with the pool
unchanged; the rejection kind/reason is `INSUFFICIENTFEE "insufficient fee"`
provided the conflicting descendant count is at most 100 and no candidate
input spends an in-pool transaction outside the conflicts' parents (otherwise
it can be `NONSTANDARD`). -/
theorem C3_replacement_incremental_fee (E : Externals) (cfg : Config)
    (pool : CTxMemPool) (tx : CTransaction) (fLimitFree : Bool) (nAcceptTime : Int)
    (fOverride : Bool) (nAbsurdFee : Int) (setConflicts setAncestors : List TxId)
    (hCT : E.checkTransactionOk = true)
    (hCB : E.isCoinBase = false)
    (hWitGate : (!cfg.prematureWitnessArg && tx.hasWitness && !E.witnessEnabled) = false)
    (hStd : (cfg.fRequireStandard && !E.isStandardOk) = false)
    (hFinal : E.checkFinalOk = true)
    (hDup : pool.existsTx tx.txid = false)
    (hConf : pool.detectConflicts cfg.fEnableReplacement tx = Except.ok setConflicts)
    (hHave : (tx.vin.any (fun txin => !E.viewHaveCoin txin.prevout)) = false)
    (hSeq : E.checkSequenceLocksOk = true)
    (hInStd : (cfg.fRequireStandard && !E.areInputsStandardOk) = false)
    (hWitStd : (tx.hasWitness && cfg.fRequireStandard && !E.isWitnessStandardOk) = false)
    (hSigOps : ¬ E.nSigOpsCost > cfg.maxStandardTxSigOpsCost)
    (hMinFee : ¬ (E.mempoolRejectFee > 0 ∧
      pool.ApplyDelta tx.txid (E.nValueIn - E.nValueOut) < E.mempoolRejectFee))
    (hRelay : ¬ (fLimitFree = true ∧
      pool.ApplyDelta tx.txid (E.nValueIn - E.nValueOut) <
        feeRateGetFee cfg.minRelayFeePerK E.entrySize))
    (hAbsurd : ¬ (nAbsurdFee ≠ 0 ∧ E.nValueIn - E.nValueOut > nAbsurdFee))
    (hCMPA : CalculateMemPoolAncestors pool
      (mkCTxMemPoolEntry tx (E.nValueIn - E.nValueOut) nAcceptTime E.chainHeight
        E.spendsCoinbase E.nSigOpsCost E.entrySize E.entryUsageSize)
      cfg.limitAncestorCountArg (cfg.limitAncestorSizeArg * 1000)
      cfg.limitDescendantCountArg (cfg.limitDescendantSizeArg * 1000) true =
      (true, setAncestors))
    (hIntersect : (setAncestors.any (fun a => setConflicts.contains a)) = false)
    (hne : setConflicts.isEmpty = false)
    (hdelta : pool.ApplyDelta tx.txid (E.nValueIn - E.nValueOut) -
        conflictFeesPure pool setConflicts <
      feeRateGetFee cfg.incrementalRelayFeePerK E.entrySize) :
    (∃ r, AcceptToMemoryPoolWorker E cfg pool tx fLimitFree nAcceptTime fOverride
      nAbsurdFee = ATMPResult.rejected r pool) ∧
    ((replStep1Pure pool setConflicts).2.2 ≤ 100 →
      (tx.vin.any (fun txin =>
        !((replStep1Pure pool setConflicts).2.1.contains txin.prevout.hash) &&
          (pool.findTx txin.prevout.hash).isSome)) = false →
      AcceptToMemoryPoolWorker E cfg pool tx fLimitFree nAcceptTime fOverride nAbsurdFee =
        ATMPResult.rejected ⟨.INSUFFICIENTFEE, "insufficient fee"⟩ pool) := by
  have hrc := replacementChecks_delta_reject pool cfg.incrementalRelayFeePerK tx
    (pool.ApplyDelta tx.txid (E.nValueIn - E.nValueOut)) E.entrySize setConflicts hne hdelta
  constructor
  · obtain ⟨r, herr⟩ := hrc.1
    refine ⟨r, ?_⟩
    simp only [AcceptToMemoryPoolWorker, mkCTxMemPoolEntry, hCT, hCB, hWitGate, hStd,
      hFinal, hDup, hConf, hHave, hSeq, hInStd, hWitStd, hSigOps, hMinFee, hRelay,
      hAbsurd, Bool.not_true, Bool.not_false, if_false, if_true, Bool.false_eq_true,
      reduceIte]
    rw [show (CalculateMemPoolAncestors pool
        { tx := tx, nFee := E.nValueIn - E.nValueOut, nTime := nAcceptTime,
          entryHeight := E.chainHeight, spendsCoinbase := E.spendsCoinbase,
          sigOpCost := E.nSigOpsCost, txSize := E.entrySize, nUsageSize := E.entryUsageSize,
          feeDelta := 0, nCountWithDescendants := 1, nSizeWithDescendants := (E.entrySize : Int),
          nModFeesWithDescendants := E.nValueIn - E.nValueOut, nCountWithAncestors := 1,
          nSizeWithAncestors := (E.entrySize : Int),
          nModFeesWithAncestors := E.nValueIn - E.nValueOut,
          nSigOpCostWithAncestors := E.nSigOpsCost, parents := [], children := [] }
        cfg.limitAncestorCountArg (cfg.limitAncestorSizeArg * 1000)
        cfg.limitDescendantCountArg (cfg.limitDescendantSizeArg * 1000) true) =
        (true, setAncestors) from hCMPA]
    simp only [hIntersect, Bool.false_eq_true, if_false, reduceIte, herr]
  · intro h1 h2
    have herr := hrc.2 h1 h2
    simp only [AcceptToMemoryPoolWorker, mkCTxMemPoolEntry, hCT, hCB, hWitGate, hStd,
      hFinal, hDup, hConf, hHave, hSeq, hInStd, hWitStd, hSigOps, hMinFee, hRelay,
      hAbsurd, Bool.not_true, Bool.not_false, if_false, if_true, Bool.false_eq_true,
      reduceIte]
    rw [show (CalculateMemPoolAncestors pool
        { tx := tx, nFee := E.nValueIn - E.nValueOut, nTime := nAcceptTime,
          entryHeight := E.chainHeight, spendsCoinbase := E.spendsCoinbase,
          sigOpCost := E.nSigOpsCost, txSize := E.entrySize, nUsageSize := E.entryUsageSize,
          feeDelta := 0, nCountWithDescendants := 1, nSizeWithDescendants := (E.entrySize : Int),
          nModFeesWithDescendants := E.nValueIn - E.nValueOut, nCountWithAncestors := 1,
          nSizeWithAncestors := (E.entrySize : Int),
          nModFeesWithAncestors := E.nValueIn - E.nValueOut,
          nSigOpCostWithAncestors := E.nSigOpsCost, parents := [], children := [] }
        cfg.limitAncestorCountArg (cfg.limitAncestorSizeArg * 1000)
        cfg.limitDescendantCountArg (cfg.limitDescendantSizeArg * 1000) true) =
        (true, setAncestors) from hCMPA]
    simp only [hIntersect, Bool.false_eq_true, if_false, reduceIte, herr]

/-- Conflicting entry for the C3 scenario: txid 1, fee 1000, vsize 250,
opting in (sequence 0). -/
def c3A : CTxMemPoolEntry :=
  mkCTxMemPoolEntry ⟨1, [⟨⟨50, 0⟩, 0⟩], 1, false⟩ 1000 0 0 false 0 250 0

/-- Unrelated in-pool entry txid 3 (a new unconfirmed parent for the
counterexample candidate). -/
def c3P : CTxMemPoolEntry :=
  mkCTxMemPoolEntry ⟨3, [⟨⟨60, 0⟩, 0⟩], 1, false⟩ 500 0 0 false 0 100 0

/-- Pool with `c3A` and `c3P`. -/
def c3pool : CTxMemPool := { emptyPool with mapTx := [c3A, c3P], totalTxSize := 350 }

/-- Counterexample candidate: txid 2 reuses `c3A`'s input and additionally
spends output 0 of the in-pool `c3P`. -/
def c3btx : CTransaction := ⟨2, [⟨⟨50, 0⟩, 0⟩, ⟨⟨3, 0⟩, 0⟩], 1, false⟩

/-- Oracles for the C3 counterexample: candidate fee 1100. -/
def c3E : Externals := { c4E with nValueIn := 1100 }

/-- C3 counterexample: the candidate conflicts with `c3A` (conflict set
non-empty), its fee delta over the conflicts (1100 − 1000 = 100) is below the
incremental relay fee for its size (250), so the claim as stated predicts
`INSUFFICIENTFEE "insufficient fee"`; the code instead rejects `NONSTANDARD
"replacement-adds-unconfirmed"` because the candidate's second input spends
the in-pool `c3P`. -/
theorem C3_counterexample :
    c3pool.detectConflicts true c3btx = Except.ok [1] ∧
    ((1100 : Int) - conflictFeesPure c3pool [1] <
      feeRateGetFee 1000 250) ∧
    AcceptToMemoryPoolWorker c3E c1cfg c3pool c3btx true 0 false 0 =
      ATMPResult.rejected ⟨.NONSTANDARD, "replacement-adds-unconfirmed"⟩ c3pool := by
  refine ⟨by rfl, by decide, by rfl⟩

/-- Candidate for the C3 witness: txid 2 reusing only `c3A`'s input. -/
def c3wtx : CTransaction := ⟨2, [⟨⟨50, 0⟩, 0⟩], 1, false⟩

/-- Witness for C3: the same fees without the extra unconfirmed input — the
worker rejects exactly `INSUFFICIENTFEE "insufficient fee"`. -/
theorem C3_replacement_incremental_fee_witness :
    AcceptToMemoryPoolWorker c3E c1cfg c3pool c3wtx true 0 false 0 =
      ATMPResult.rejected ⟨.INSUFFICIENTFEE, "insufficient fee"⟩ c3pool :=
  (C3_replacement_incremental_fee c3E c1cfg c3pool c3wtx true 0 false 0 [1] []
    rfl rfl rfl rfl rfl rfl (by rfl) rfl rfl rfl rfl
    (by decide) (by decide) (by decide) (by decide) (by rfl) rfl rfl
    (by decide)).2 (by decide) (by decide)

/-! ## Claim C5: package limits -/

/-- The i-th chain transaction: txid `i` spending output 0 of txid `i − 1`
(txid 0 is a confirmed coin). -/
def c5tx (i : Nat) : CTransaction := ⟨i, [⟨⟨i - 1, 0⟩, 0⟩], 1, false⟩

/-- Admit the i-th chain transaction, keeping the pool on rejection. -/
def c5step (pool : CTxMemPool) (i : Nat) : CTxMemPool :=
  match AcceptToMemoryPoolWorker c2E c1cfg pool (c5tx i) true 0 false 0 with
  | ATMPResult.accepted p => p
  | _ => pool

/-- The pool after admitting the chain `c5tx 1 … c5tx n`. -/
def c5chain : Nat → CTxMemPool
  | 0 => emptyPool
  | n + 1 => c5step (c5chain n) (n + 1)

set_option maxRecDepth 100000 in
/-- C5: (general) whenever `CalculateMemPoolAncestors` fails for the
candidate under the configured package limits, the worker — its earlier
steps passing — rejects `NONSTANDARD "too-long-mempool-chain"` with the pool
unchanged; (concrete) with `limitAncestorCount = 25` the chain of 25
dependent transactions is admitted (25 entries), and the 26th child is
rejected with `NONSTANDARD "too-long-mempool-chain"`, the pool still holding
exactly 25 entries. -/
theorem C5_too_long_mempool_chain :
    (∀ (E : Externals) (cfg : Config) (pool : CTxMemPool) (tx : CTransaction)
      (fLimitFree : Bool) (nAcceptTime : Int) (fOverride : Bool) (nAbsurdFee : Int)
      (setConflicts : List TxId),
      E.checkTransactionOk = true →
      E.isCoinBase = false →
      (!cfg.prematureWitnessArg && tx.hasWitness && !E.witnessEnabled) = false →
      (cfg.fRequireStandard && !E.isStandardOk) = false →
      E.checkFinalOk = true →
      pool.existsTx tx.txid = false →
      pool.detectConflicts cfg.fEnableReplacement tx = Except.ok setConflicts →
      (tx.vin.any (fun txin => !E.viewHaveCoin txin.prevout)) = false →
      E.checkSequenceLocksOk = true →
      (cfg.fRequireStandard && !E.areInputsStandardOk) = false →
      (tx.hasWitness && cfg.fRequireStandard && !E.isWitnessStandardOk) = false →
      ¬ E.nSigOpsCost > cfg.maxStandardTxSigOpsCost →
      ¬ (E.mempoolRejectFee > 0 ∧
        pool.ApplyDelta tx.txid (E.nValueIn - E.nValueOut) < E.mempoolRejectFee) →
      ¬ (fLimitFree = true ∧
        pool.ApplyDelta tx.txid (E.nValueIn - E.nValueOut) <
          feeRateGetFee cfg.minRelayFeePerK E.entrySize) →
      ¬ (nAbsurdFee ≠ 0 ∧ E.nValueIn - E.nValueOut > nAbsurdFee) →
      (CalculateMemPoolAncestors pool
        (mkCTxMemPoolEntry tx (E.nValueIn - E.nValueOut) nAcceptTime E.chainHeight
          E.spendsCoinbase E.nSigOpsCost E.entrySize E.entryUsageSize)
        cfg.limitAncestorCountArg (cfg.limitAncestorSizeArg * 1000)
        cfg.limitDescendantCountArg (cfg.limitDescendantSizeArg * 1000) true).1 = false →
      AcceptToMemoryPoolWorker E cfg pool tx fLimitFree nAcceptTime fOverride nAbsurdFee =
        ATMPResult.rejected ⟨.NONSTANDARD, "too-long-mempool-chain"⟩ pool) ∧
    (c5chain 25).mapTx.length = 25 ∧
    AcceptToMemoryPoolWorker c2E c1cfg (c5chain 25) (c5tx 26) true 0 false 0 =
      ATMPResult.rejected ⟨.NONSTANDARD, "too-long-mempool-chain"⟩ (c5chain 25) := by
  refine ⟨?_, by decide, by decide⟩
  intro E cfg pool tx fLimitFree nAcceptTime fOverride nAbsurdFee setConflicts
    hCT hCB hWitGate hStd hFinal hDup hConf hHave hSeq hInStd hWitStd hSigOps
    hMinFee hRelay hAbsurd hCMPA1
  have hCMPA : CalculateMemPoolAncestors pool
      (mkCTxMemPoolEntry tx (E.nValueIn - E.nValueOut) nAcceptTime E.chainHeight
        E.spendsCoinbase E.nSigOpsCost E.entrySize E.entryUsageSize)
      cfg.limitAncestorCountArg (cfg.limitAncestorSizeArg * 1000)
      cfg.limitDescendantCountArg (cfg.limitDescendantSizeArg * 1000) true =
      (false, (CalculateMemPoolAncestors pool
        (mkCTxMemPoolEntry tx (E.nValueIn - E.nValueOut) nAcceptTime E.chainHeight
          E.spendsCoinbase E.nSigOpsCost E.entrySize E.entryUsageSize)
        cfg.limitAncestorCountArg (cfg.limitAncestorSizeArg * 1000)
        cfg.limitDescendantCountArg (cfg.limitDescendantSizeArg * 1000) true).2) :=
    Prod.ext hCMPA1 rfl
  simp only [AcceptToMemoryPoolWorker, mkCTxMemPoolEntry, hCT, hCB, hWitGate, hStd,
    hFinal, hDup, hConf, hHave, hSeq, hInStd, hWitStd, hSigOps, hMinFee, hRelay,
    hAbsurd, Bool.not_true, Bool.not_false, if_false, if_true, Bool.false_eq_true,
    reduceIte]
  rw [show (CalculateMemPoolAncestors pool
      { tx := tx, nFee := E.nValueIn - E.nValueOut, nTime := nAcceptTime,
        entryHeight := E.chainHeight, spendsCoinbase := E.spendsCoinbase,
        sigOpCost := E.nSigOpsCost, txSize := E.entrySize, nUsageSize := E.entryUsageSize,
        feeDelta := 0, nCountWithDescendants := 1, nSizeWithDescendants := (E.entrySize : Int),
        nModFeesWithDescendants := E.nValueIn - E.nValueOut, nCountWithAncestors := 1,
        nSizeWithAncestors := (E.entrySize : Int),
        nModFeesWithAncestors := E.nValueIn - E.nValueOut,
        nSigOpCostWithAncestors := E.nSigOpsCost, parents := [], children := [] }
      cfg.limitAncestorCountArg (cfg.limitAncestorSizeArg * 1000)
      cfg.limitDescendantCountArg (cfg.limitDescendantSizeArg * 1000) true) =
      (false, (CalculateMemPoolAncestors pool
        { tx := tx, nFee := E.nValueIn - E.nValueOut, nTime := nAcceptTime,
          entryHeight := E.chainHeight, spendsCoinbase := E.spendsCoinbase,
          sigOpCost := E.nSigOpsCost, txSize := E.entrySize, nUsageSize := E.entryUsageSize,
          feeDelta := 0, nCountWithDescendants := 1, nSizeWithDescendants := (E.entrySize : Int),
          nModFeesWithDescendants := E.nValueIn - E.nValueOut, nCountWithAncestors := 1,
          nSizeWithAncestors := (E.entrySize : Int),
          nModFeesWithAncestors := E.nValueIn - E.nValueOut,
          nSigOpCostWithAncestors := E.nSigOpsCost, parents := [], children := [] }
        cfg.limitAncestorCountArg (cfg.limitAncestorSizeArg * 1000)
        cfg.limitDescendantCountArg (cfg.limitDescendantSizeArg * 1000) true).2)
    from hCMPA]

set_option maxRecDepth 100000 in
/-- Witness for C5: the general rejection applied at the concrete 26th chain
child. -/
theorem C5_too_long_mempool_chain_witness :
    AcceptToMemoryPoolWorker c2E c1cfg (c5chain 25) (c5tx 26) true 0 false 0 =
      ATMPResult.rejected ⟨.NONSTANDARD, "too-long-mempool-chain"⟩ (c5chain 25) :=
  C5_too_long_mempool_chain.1 c2E c1cfg (c5chain 25) (c5tx 26) true 0 false 0 []
    rfl rfl rfl rfl rfl (by decide) (by rfl) rfl rfl rfl rfl
    (by decide) (by decide) (by decide) (by decide) (by decide)

/-! ## Txid-preservation machinery (claims C9 and C6) -/

/-- The txid column of the store. -/
def poolTxids (pool : CTxMemPool) : List TxId :=
  pool.mapTx.map (fun e => e.tx.txid)

/-- The store's txid column is untouched. -/
def TxidsPreserved (p q : CTxMemPool) : Prop := poolTxids q = poolTxids p

theorem txidsPreserved_refl (p : CTxMemPool) : TxidsPreserved p p := rfl

theorem txidsPreserved_trans {p q r : CTxMemPool}
    (h1 : TxidsPreserved p q) (h2 : TxidsPreserved q r) : TxidsPreserved p r :=
  h2.trans h1

theorem poolTxids_map_of_preserve (l : List CTxMemPoolEntry)
    (f : CTxMemPoolEntry → CTxMemPoolEntry) (h : ∀ e, (f e).tx.txid = e.tx.txid) :
    (l.map f).map (fun e => e.tx.txid) = l.map (fun e => e.tx.txid) := by
  induction l with
  | nil => rfl
  | cons a t ih => simp only [List.map_cons, ih, h a]

theorem modifyTx_txidsPreserved (pool : CTxMemPool) (t : TxId)
    (f : CTxMemPoolEntry → CTxMemPoolEntry) (h : ∀ e, (f e).tx.txid = e.tx.txid) :
    TxidsPreserved pool (pool.modifyTx t f) := by
  unfold TxidsPreserved poolTxids CTxMemPool.modifyTx
  exact poolTxids_map_of_preserve _ _ (fun e => by
    by_cases hc : (e.tx.txid == t) = true <;> simp [hc, h])

theorem modifySet_txidsPreserved (pool : CTxMemPool) (s : List TxId)
    (f : CTxMemPoolEntry → CTxMemPoolEntry) (h : ∀ e, (f e).tx.txid = e.tx.txid) :
    TxidsPreserved pool (pool.modifySet s f) := by
  unfold TxidsPreserved poolTxids CTxMemPool.modifySet
  exact poolTxids_map_of_preserve _ _ (fun e => by
    by_cases hc : e.tx.txid ∈ s <;> simp [hc, h])

theorem updateChild_txidsPreserved (pool : CTxMemPool) (a b : TxId) (add : Bool) :
    TxidsPreserved pool (pool.UpdateChild a b add) :=
  modifyTx_txidsPreserved _ _ _ (fun _ => rfl)

theorem updateParent_txidsPreserved (pool : CTxMemPool) (a b : TxId) (add : Bool) :
    TxidsPreserved pool (pool.UpdateParent a b add) :=
  modifyTx_txidsPreserved _ _ _ (fun _ => rfl)

theorem foldl_txidsPreserved {α : Type} (g : CTxMemPool → α → CTxMemPool)
    (l : List α) (h : ∀ p a, TxidsPreserved p (g p a)) (p : CTxMemPool) :
    TxidsPreserved p (l.foldl g p) := by
  induction l generalizing p with
  | nil => exact txidsPreserved_refl p
  | cons a t ih => exact txidsPreserved_trans (h p a) (ih _)

theorem updateAncestorsOf_txidsPreserved (pool : CTxMemPool) (add : Bool)
    (it : TxId) (anc : List TxId) :
    TxidsPreserved pool (pool.UpdateAncestorsOf add it anc) := by
  have hfold : ∀ l : List TxId,
      TxidsPreserved pool (l.foldl (fun q piter => q.UpdateChild piter it add) pool) :=
    fun l => foldl_txidsPreserved _ _ (fun q a => updateChild_txidsPreserved q a it add) pool
  simp only [CTxMemPool.UpdateAncestorsOf]
  split
  · exact hfold _
  · exact txidsPreserved_trans (hfold _) (modifySet_txidsPreserved _ _ _ (fun x => rfl))

theorem updateChildrenForRemoval_txidsPreserved (pool : CTxMemPool) (it : TxId) :
    TxidsPreserved pool (pool.UpdateChildrenForRemoval it) := by
  unfold CTxMemPool.UpdateChildrenForRemoval
  exact foldl_txidsPreserved _ _ (fun p a => updateParent_txidsPreserved p a it false) pool

theorem updateForRemove_txidsPreserved (pool : CTxMemPool)
    (entriesToRemove : List TxId) (updateDescendants : Bool) :
    TxidsPreserved pool (pool.UpdateForRemoveFromMempool entriesToRemove updateDescendants) := by
  unfold CTxMemPool.UpdateForRemoveFromMempool
  have hstage1 : TxidsPreserved pool
      (if updateDescendants then
        entriesToRemove.foldl (fun p removeIt =>
          match p.findTx removeIt with
          | none => p
          | some e =>
            p.modifySet (setRemove removeIt (p.CalculateDescendants removeIt []))
              (fun d => d.UpdateAncestorState (-(e.txSize : Int)) (-e.GetModifiedFee)
                (-1) (-e.sigOpCost))) pool
      else pool) := by
    split
    · apply foldl_txidsPreserved
      intro q a
      cases q.findTx a with
      | none => exact txidsPreserved_refl q
      | some e => exact modifySet_txidsPreserved _ _ _ (fun x => rfl)
    · exact txidsPreserved_refl pool
  have hstage2 : ∀ q : CTxMemPool, TxidsPreserved q
      (entriesToRemove.foldl (fun p removeIt =>
        match p.findTx removeIt with
        | none => p
        | some e =>
          p.UpdateAncestorsOf false removeIt
            (CalculateMemPoolAncestors p e nNoLimit nNoLimit nNoLimit nNoLimit false).2) q) := by
    intro q
    apply foldl_txidsPreserved
    intro r a
    cases r.findTx a with
    | none => exact txidsPreserved_refl r
    | some e => exact updateAncestorsOf_txidsPreserved _ _ _ _
  have hstage3 : ∀ q : CTxMemPool, TxidsPreserved q
      (entriesToRemove.foldl (fun p removeIt => p.UpdateChildrenForRemoval removeIt) q) :=
    fun q => foldl_txidsPreserved _ _
      (fun p a => updateChildrenForRemoval_txidsPreserved p a) q
  exact txidsPreserved_trans hstage1 (txidsPreserved_trans (hstage2 _) (hstage3 _))

theorem map_txid_filter (l : List CTxMemPoolEntry) (t : TxId) :
    (l.filter (fun x => !(x.tx.txid == t))).map (fun e => e.tx.txid) =
      (l.map (fun e => e.tx.txid)).filter (fun x => !(x == t)) := by
  induction l with
  | nil => rfl
  | cons a rest ih =>
    by_cases ha : (a.tx.txid == t) = true
    · simp [List.filter_cons, ha, ih]
    · have ha' : (a.tx.txid == t) = false := by
        cases h : a.tx.txid == t
        · rfl
        · exact absurd h ha
      simp [List.filter_cons, ha', ih]

theorem removeUnchecked_txids (pool : CTxMemPool) (t : TxId)
    (reason : MemPoolRemovalReason) :
    poolTxids (pool.removeUnchecked t reason) =
      (poolTxids pool).filter (fun x => !(x == t)) := by
  unfold CTxMemPool.removeUnchecked
  cases hf : pool.findTx t with
  | none =>
    have hall : ∀ x ∈ poolTxids pool, (!(x == t)) = true := by
      intro x hx
      simp only [poolTxids, List.mem_map] at hx
      obtain ⟨e, he, rfl⟩ := hx
      have := List.find?_eq_none.mp hf e he
      simpa using this
    rw [List.filter_eq_self.mpr hall]
  | some e =>
    show (pool.mapTx.filter (fun x => !(x.tx.txid == t))).map (fun e => e.tx.txid) =
      (poolTxids pool).filter (fun x => !(x == t))
    exact map_txid_filter pool.mapTx t

theorem foldl_removeUnchecked_txids (stage : List TxId) (pool : CTxMemPool)
    (reason : MemPoolRemovalReason) :
    poolTxids (stage.foldl (fun p it => p.removeUnchecked it reason) pool) =
      (poolTxids pool).filter (fun x => !(stage.contains x)) := by
  induction stage generalizing pool with
  | nil => simp [List.filter_eq_self]
  | cons t rest ih =>
    rw [List.foldl_cons, ih, removeUnchecked_txids, List.filter_filter]
    congr 1
    funext x
    cases hbe : x == t with
    | false =>
      have hne : x ≠ t := ne_of_beq_false hbe
      simp [List.contains_cons, hbe, hne, Bool.and_comm]
    | true =>
      have heq : x = t := eq_of_beq hbe
      subst heq
      simp [List.contains_cons]

/-- Txids after `RemoveStaged`: exactly the original txids outside the staged
set. -/
theorem removeStaged_txids (pool : CTxMemPool) (stage : List TxId)
    (u : Bool) (reason : MemPoolRemovalReason) :
    poolTxids (pool.RemoveStaged stage u reason) =
      (poolTxids pool).filter (fun x => !(stage.contains x)) := by
  unfold CTxMemPool.RemoveStaged
  rw [foldl_removeUnchecked_txids, updateForRemove_txidsPreserved pool stage u]

/-! ## Claim C9: `removeRecursive` on an absent transaction -/

/-- The direct in-pool spenders of `origTx`'s outputs, as staged by
`removeRecursive` when `origTx` is not itself in the pool. -/
def directSpenders (pool : CTxMemPool) (origTx : CTransaction) : List TxId :=
  (List.range origTx.voutLen).foldl (fun acc i =>
    match pool.mapNextTxFind ⟨origTx.txid, i⟩ with
    | none => acc
    | some nextE => setInsert nextE.tx.txid acc) []

/-- The staged removal set: the direct spenders with all their in-pool
descendants. -/
def spendersClosure (pool : CTxMemPool) (origTx : CTransaction) : List TxId :=
  (directSpenders pool origTx).foldl (fun acc it => pool.CalculateDescendants it acc) []

theorem directSpenders_fold_mem (pool : CTxMemPool) (origTx : CTransaction)
    (l : List Nat) (acc : List TxId) (t : TxId) :
    (t ∈ l.foldl (fun acc i =>
      match pool.mapNextTxFind ⟨origTx.txid, i⟩ with
      | none => acc
      | some nextE => setInsert nextE.tx.txid acc) acc) ↔
    (t ∈ acc ∨ ∃ i ∈ l, ∃ e, pool.mapNextTxFind ⟨origTx.txid, i⟩ = some e ∧
      e.tx.txid = t) := by
  induction l generalizing acc with
  | nil => simp
  | cons i rest ih =>
    rw [List.foldl_cons]
    cases hfind : pool.mapNextTxFind ⟨origTx.txid, i⟩ with
    | none =>
      rw [ih]
      constructor
      · rintro (h | ⟨j, hj, e, he, ht⟩)
        · exact Or.inl h
        · exact Or.inr ⟨j, List.mem_cons_of_mem _ hj, e, he, ht⟩
      · rintro (h | ⟨j, hj, e, he, ht⟩)
        · exact Or.inl h
        · rcases List.mem_cons.mp hj with rfl | hj'
          · rw [hfind] at he; cases he
          · exact Or.inr ⟨j, hj', e, he, ht⟩
    | some eS =>
      rw [ih]
      constructor
      · rintro (h | ⟨j, hj, e, he, ht⟩)
        · rcases (mem_setInsert t eS.tx.txid acc).mp h with rfl | h'
          · exact Or.inr ⟨i, List.mem_cons_self _ _, eS, hfind, rfl⟩
          · exact Or.inl h'
        · exact Or.inr ⟨j, List.mem_cons_of_mem _ hj, e, he, ht⟩
      · rintro (h | ⟨j, hj, e, he, ht⟩)
        · exact Or.inl ((mem_setInsert t eS.tx.txid acc).mpr (Or.inr h))
        · rcases List.mem_cons.mp hj with rfl | hj'
          · rw [hfind] at he
            cases he
            exact Or.inl ((mem_setInsert t _ acc).mpr (Or.inl ht.symm))
          · exact Or.inr ⟨j, hj', e, he, ht⟩

/-- `mapNextTxFind` characterisation under the at-most-one-spender invariant
(invariant 3). -/
theorem mapNextTxFind_iff (pool : CTxMemPool)
    (hu : ∀ op : COutPoint, ∀ e1 e2, e1 ∈ pool.mapTx → e2 ∈ pool.mapTx →
      (e1.tx.vin.any (fun ti => ti.prevout == op)) = true →
      (e2.tx.vin.any (fun ti => ti.prevout == op)) = true → e1 = e2)
    (op : COutPoint) (e : CTxMemPoolEntry) :
    pool.mapNextTxFind op = some e ↔
      e ∈ pool.mapTx ∧ (e.tx.vin.any (fun ti => ti.prevout == op)) = true := by
  constructor
  · intro h
    have h' : pool.mapTx.find? (fun x => x.tx.vin.any (fun ti => ti.prevout == op)) =
        some e := h
    have hp := List.find?_some h'
    exact ⟨List.mem_of_find?_eq_some h', by simpa using hp⟩
  · rintro ⟨hmem, hsp⟩
    have hex : (pool.mapTx.find? (fun x => x.tx.vin.any (fun ti => ti.prevout == op))).isSome := by
      rw [List.find?_isSome]
      exact ⟨e, hmem, hsp⟩
    obtain ⟨e2, he2⟩ := Option.isSome_iff_exists.mp hex
    have he2mem : e2 ∈ pool.mapTx := List.mem_of_find?_eq_some he2
    have he2sp := List.find?_some he2
    rw [CTxMemPool.mapNextTxFind, he2]
    rw [hu op e2 e he2mem hmem he2sp hsp]

/-- C9: for a transaction `T` absent from the pool, `removeRecursive`
removes exactly the in-pool spenders of `T`'s outputs together with all
their descendants (`CalculateDescendants` closures): the surviving txids are
precisely the original ones outside that closure, and the staged direct
spenders are exactly the transactions spending an output of `T`. -/
theorem C9_removeRecursive_absent (pool : CTxMemPool) (T : CTransaction)
    (reason : MemPoolRemovalReason)
    (hout : pool.findTx T.txid = none)
    (hu : ∀ op : COutPoint, ∀ e1 e2, e1 ∈ pool.mapTx → e2 ∈ pool.mapTx →
      (e1.tx.vin.any (fun ti => ti.prevout == op)) = true →
      (e2.tx.vin.any (fun ti => ti.prevout == op)) = true → e1 = e2) :
    poolTxids (pool.removeRecursive T reason) =
      (poolTxids pool).filter (fun x => !((spendersClosure pool T).contains x)) ∧
    (∀ t, t ∈ directSpenders pool T ↔
      ∃ i < T.voutLen, ∃ e ∈ pool.mapTx,
        (e.tx.vin.any (fun ti => ti.prevout == (⟨T.txid, i⟩ : COutPoint))) = true ∧
        e.tx.txid = t) := by
  constructor
  · unfold CTxMemPool.removeRecursive
    rw [hout]
    exact removeStaged_txids pool (spendersClosure pool T) false reason
  · intro t
    unfold directSpenders
    rw [directSpenders_fold_mem]
    simp only [List.mem_nil_iff, false_or, List.mem_range]
    constructor
    · rintro ⟨i, hi, e, he, ht⟩
      obtain ⟨hmem, hsp⟩ := (mapNextTxFind_iff pool hu _ e).mp he
      exact ⟨i, hi, e, hmem, hsp, ht⟩
    · rintro ⟨i, hi, e, hmem, hsp, ht⟩
      exact ⟨i, hi, e, (mapNextTxFind_iff pool hu _ e).mpr ⟨hmem, hsp⟩, ht⟩

/-- One-entry pool for the C9 witness: txid 2 spends output 0 of the absent
txid 1. -/
def c9pool : CTxMemPool := { emptyPool with mapTx := [c7e2], totalTxSize := 150 }

/-- Witness for C9: removing the absent parent removes its in-pool
spender. -/
theorem C9_removeRecursive_absent_witness :
    poolTxids (c9pool.removeRecursive ⟨1, [], 1, false⟩ .CONFLICT) =
      (poolTxids c9pool).filter
        (fun x => !((spendersClosure c9pool ⟨1, [], 1, false⟩).contains x)) :=
  (C9_removeRecursive_absent c9pool ⟨1, [], 1, false⟩ .CONFLICT (by decide)
    (by
      intro op e1 e2 h1 h2 hs1 hs2
      have h1' : e1 = c7e2 := by simpa [c9pool, emptyPool] using h1
      have h2' : e2 = c7e2 := by simpa [c9pool, emptyPool] using h2
      rw [h1', h2'])).1

/-! ## Rolling-feerate preservation (claim C6) -/

/-- The rolling minimum feerate is untouched. -/
def RollingPreserved (p q : CTxMemPool) : Prop :=
  q.rollingMinimumFeeRate = p.rollingMinimumFeeRate

theorem rollingPreserved_refl (p : CTxMemPool) : RollingPreserved p p := rfl

theorem rollingPreserved_trans {p q r : CTxMemPool}
    (h1 : RollingPreserved p q) (h2 : RollingPreserved q r) : RollingPreserved p r :=
  h2.trans h1

theorem modifyTx_rollingPreserved (pool : CTxMemPool) (t : TxId)
    (f : CTxMemPoolEntry → CTxMemPoolEntry) : RollingPreserved pool (pool.modifyTx t f) := rfl

theorem modifySet_rollingPreserved (pool : CTxMemPool) (s : List TxId)
    (f : CTxMemPoolEntry → CTxMemPoolEntry) : RollingPreserved pool (pool.modifySet s f) := rfl

theorem foldl_rollingPreserved {α : Type} (g : CTxMemPool → α → CTxMemPool)
    (l : List α) (h : ∀ p a, RollingPreserved p (g p a)) (p : CTxMemPool) :
    RollingPreserved p (l.foldl g p) := by
  induction l generalizing p with
  | nil => exact rollingPreserved_refl p
  | cons a t ih => exact rollingPreserved_trans (h p a) (ih _)

theorem updateAncestorsOf_rollingPreserved (pool : CTxMemPool) (add : Bool)
    (it : TxId) (anc : List TxId) :
    RollingPreserved pool (pool.UpdateAncestorsOf add it anc) := by
  have hfold : ∀ l : List TxId,
      RollingPreserved pool (l.foldl (fun q piter => q.UpdateChild piter it add) pool) :=
    fun l => foldl_rollingPreserved _ _ (fun q a => modifyTx_rollingPreserved q a _) pool
  simp only [CTxMemPool.UpdateAncestorsOf]
  split
  · exact hfold _
  · exact rollingPreserved_trans (hfold _) (modifySet_rollingPreserved _ _ _)

theorem updateChildrenForRemoval_rollingPreserved (pool : CTxMemPool) (it : TxId) :
    RollingPreserved pool (pool.UpdateChildrenForRemoval it) := by
  unfold CTxMemPool.UpdateChildrenForRemoval
  exact foldl_rollingPreserved _ _ (fun p a => modifyTx_rollingPreserved p a _) pool

theorem updateForRemove_rollingPreserved (pool : CTxMemPool)
    (entriesToRemove : List TxId) (updateDescendants : Bool) :
    RollingPreserved pool
      (pool.UpdateForRemoveFromMempool entriesToRemove updateDescendants) := by
  unfold CTxMemPool.UpdateForRemoveFromMempool
  have hstage1 : RollingPreserved pool
      (if updateDescendants then
        entriesToRemove.foldl (fun p removeIt =>
          match p.findTx removeIt with
          | none => p
          | some e =>
            p.modifySet (setRemove removeIt (p.CalculateDescendants removeIt []))
              (fun d => d.UpdateAncestorState (-(e.txSize : Int)) (-e.GetModifiedFee)
                (-1) (-e.sigOpCost))) pool
      else pool) := by
    split
    · apply foldl_rollingPreserved
      intro q a
      cases q.findTx a with
      | none => exact rollingPreserved_refl q
      | some e => exact modifySet_rollingPreserved _ _ _
    · exact rollingPreserved_refl pool
  have hstage2 : ∀ q : CTxMemPool, RollingPreserved q
      (entriesToRemove.foldl (fun p removeIt =>
        match p.findTx removeIt with
        | none => p
        | some e =>
          p.UpdateAncestorsOf false removeIt
            (CalculateMemPoolAncestors p e nNoLimit nNoLimit nNoLimit nNoLimit false).2) q) := by
    intro q
    apply foldl_rollingPreserved
    intro r a
    cases r.findTx a with
    | none => exact rollingPreserved_refl r
    | some e => exact updateAncestorsOf_rollingPreserved _ _ _ _
  have hstage3 : ∀ q : CTxMemPool, RollingPreserved q
      (entriesToRemove.foldl (fun p removeIt => p.UpdateChildrenForRemoval removeIt) q) :=
    fun q => foldl_rollingPreserved _ _
      (fun p a => updateChildrenForRemoval_rollingPreserved p a) q
  exact rollingPreserved_trans hstage1 (rollingPreserved_trans (hstage2 _) (hstage3 _))

theorem removeUnchecked_rollingPreserved (pool : CTxMemPool) (t : TxId)
    (reason : MemPoolRemovalReason) :
    RollingPreserved pool (pool.removeUnchecked t reason) := by
  unfold CTxMemPool.removeUnchecked
  cases pool.findTx t with
  | none => exact rollingPreserved_refl pool
  | some e => rfl

theorem removeStaged_rollingPreserved (pool : CTxMemPool) (stage : List TxId)
    (u : Bool) (reason : MemPoolRemovalReason) :
    RollingPreserved pool (pool.RemoveStaged stage u reason) := by
  unfold CTxMemPool.RemoveStaged
  exact rollingPreserved_trans (updateForRemove_rollingPreserved pool stage u)
    (foldl_rollingPreserved _ _
      (fun p a => removeUnchecked_rollingPreserved p a reason) _)

/-! ## Claim C6: `TrimToSize` -/

theorem trackPackageRemoved_mapTx (pool : CTxMemPool) (r : Int) :
    (pool.trackPackageRemoved r).mapTx = pool.mapTx := by
  unfold CTxMemPool.trackPackageRemoved
  split <;> rfl

theorem trackPackageRemoved_rolling (pool : CTxMemPool) (r : Int) :
    (pool.trackPackageRemoved r).rollingMinimumFeeRate =
      max pool.rollingMinimumFeeRate r := by
  unfold CTxMemPool.trackPackageRemoved
  split
  · next h => simp only [max_eq_right (le_of_lt h)]
  · next h => simp only [max_eq_left (by omega : r ≤ pool.rollingMinimumFeeRate)]

theorem calcDescGo_mono (pool : CTxMemPool) :
    ∀ fuel stage set, ∀ x ∈ set, x ∈ CalculateDescendantsGo pool fuel stage set := by
  intro fuel
  induction fuel with
  | zero => intro stage set x hx; exact hx
  | succ n ih =>
    intro stage set x hx
    cases stage with
    | nil => exact hx
    | cons it rest =>
      simp only [CalculateDescendantsGo]
      exact ih _ _ x ((mem_setInsert x it set).mpr (Or.inr hx))

theorem calcDescGo_succ (pool : CTxMemPool) (fuel : Nat) (it : TxId)
    (rest set : List TxId) :
    CalculateDescendantsGo pool (fuel + 1) (it :: rest) set =
      CalculateDescendantsGo pool fuel
        ((match pool.findTx it with
          | none => []
          | some e => e.children).foldl (fun acc c =>
            if (setInsert it set).contains c then acc else setInsert c acc) rest)
        (setInsert it set) := rfl

/-- `CalculateDescendants` puts the root into the accumulated set. -/
theorem calcDesc_self (pool : CTxMemPool) (t : TxId) (acc : List TxId) :
    t ∈ pool.CalculateDescendants t acc := by
  unfold CTxMemPool.CalculateDescendants
  by_cases hmem : t ∈ acc
  · have : acc.contains t = true := by simpa using hmem
    rw [if_pos this]
    have hfuel : cdFuel pool =
        (pool.mapTx.length + (pool.mapTx.map (fun e => e.children.length)).sum + 1) + 1 :=
      rfl
    rw [hfuel]
    exact calcDescGo_mono pool _ [] acc t hmem
  · rw [if_neg (by simpa using hmem)]
    have hfuel : cdFuel pool =
        (pool.mapTx.length + (pool.mapTx.map (fun e => e.children.length)).sum + 1) + 1 :=
      rfl
    rw [hfuel, calcDescGo_succ]
    exact calcDescGo_mono pool _ _ _ t ((mem_setInsert t t acc).mpr (Or.inl rfl))

theorem minDesc_fold_some (l : List CTxMemPoolEntry) (m : CTxMemPoolEntry) :
    ∃ e, l.foldl (fun acc x =>
        match acc with
        | none => some x
        | some mm => if descendantScoreBefore x mm then some x else some mm) (some m) =
      some e ∧ (e = m ∨ e ∈ l) := by
  induction l generalizing m with
  | nil => exact ⟨m, rfl, Or.inl rfl⟩
  | cons a rest ih =>
    rw [List.foldl_cons]
    by_cases hcmp : descendantScoreBefore a m = true
    · simp only [hcmp, if_true, reduceIte]
      obtain ⟨e, he, hcase⟩ := ih a
      refine ⟨e, he, ?_⟩
      rcases hcase with rfl | hmem
      · exact Or.inr (List.mem_cons_self _ _)
      · exact Or.inr (List.mem_cons_of_mem _ hmem)
    · simp only [hcmp, Bool.false_eq_true, if_false, reduceIte]
      obtain ⟨e, he, hcase⟩ := ih m
      refine ⟨e, he, ?_⟩
      rcases hcase with rfl | hmem
      · exact Or.inl rfl
      · exact Or.inr (List.mem_cons_of_mem _ hmem)

/-- A non-empty store has a worst descendant-score entry, and it is one of
the entries. -/
theorem minDescendantScore_some (pool : CTxMemPool) (hne : pool.mapTx ≠ []) :
    ∃ e, pool.minDescendantScore = some e ∧ e ∈ pool.mapTx := by
  unfold CTxMemPool.minDescendantScore
  cases hl : pool.mapTx with
  | nil => exact absurd hl hne
  | cons a rest =>
    rw [List.foldl_cons]
    obtain ⟨e, he, hcase⟩ := minDesc_fold_some rest a
    refine ⟨e, he, ?_⟩
    rcases hcase with rfl | hmem
    · exact List.mem_cons_self _ _
    · exact List.mem_cons_of_mem _ hmem

/-- The selected package feerate plus the incremental relay fee. -/
def trimSelectedRate (it : CTxMemPoolEntry) (incRelayPerK : Int) : Int :=
  feeRatePerK it.nModFeesWithDescendants it.nSizeWithDescendants + incRelayPerK

/-- One iteration of the trim loop: bump the rolling feerate by the selected
package's rate, then remove the package (reason `SIZELIMIT`). -/
def trimStepPool (pool : CTxMemPool) (it : CTxMemPoolEntry) (incRelayPerK : Int) :
    CTxMemPool :=
  let pool1 := pool.trackPackageRemoved (trimSelectedRate it incRelayPerK)
  pool1.RemoveStaged (pool1.CalculateDescendants it.tx.txid []) false .SIZELIMIT

/-- The outpoints collected in one iteration of the trim loop. -/
def trimStepOutpoints (pool : CTxMemPool) (it : CTxMemPoolEntry) (incRelayPerK : Int)
    (acc : List COutPoint) : List COutPoint :=
  let pool1 := pool.trackPackageRemoved (trimSelectedRate it incRelayPerK)
  let stage := pool1.CalculateDescendants it.tx.txid []
  let txn := stage.filterMap (fun t => (pool1.findTx t).map (fun e => e.tx))
  let pool2 := pool1.RemoveStaged stage false .SIZELIMIT
  txn.foldl (fun a tx =>
    tx.vin.foldl (fun a2 txin =>
      if pool2.existsTx txin.prevout.hash then a2 else a2 ++ [txin.prevout]) a) acc

theorem trimStepPool_txids (pool : CTxMemPool) (it : CTxMemPoolEntry)
    (incRelayPerK : Int) :
    poolTxids (trimStepPool pool it incRelayPerK) =
      (poolTxids pool).filter (fun x =>
        !(((pool.trackPackageRemoved (trimSelectedRate it incRelayPerK)).CalculateDescendants
          it.tx.txid []).contains x)) := by
  unfold trimStepPool
  rw [removeStaged_txids]
  congr 1
  unfold poolTxids
  rw [trackPackageRemoved_mapTx]

theorem trimStepPool_length_lt (pool : CTxMemPool) (it : CTxMemPoolEntry)
    (incRelayPerK : Int) (hmem : it ∈ pool.mapTx) :
    (trimStepPool pool it incRelayPerK).mapTx.length < pool.mapTx.length := by
  have h1 : (trimStepPool pool it incRelayPerK).mapTx.length =
      (poolTxids (trimStepPool pool it incRelayPerK)).length := by
    unfold poolTxids
    rw [List.length_map]
  have h2 : pool.mapTx.length = (poolTxids pool).length := by
    unfold poolTxids
    rw [List.length_map]
  rw [h1, h2, trimStepPool_txids]
  apply List.length_filter_lt_length_iff_exists.mpr
  refine ⟨it.tx.txid, ?_, ?_⟩
  · exact List.mem_map_of_mem _ hmem
  · have hin : it.tx.txid ∈
        (pool.trackPackageRemoved (trimSelectedRate it incRelayPerK)).CalculateDescendants
          it.tx.txid [] :=
      calcDesc_self _ _ _
    simp [hin]

theorem trimGo_unfold (usage : CTxMemPool → Nat) (incRelayPerK : Int)
    (sizelimit : Nat) (fuel : Nat) (pool : CTxMemPool) (acc : List COutPoint)
    (it : CTxMemPoolEntry)
    (hne : pool.mapTx.isEmpty = false)
    (husage : sizelimit < usage pool)
    (hmin : pool.minDescendantScore = some it) :
    TrimToSizeGo usage incRelayPerK sizelimit (fuel + 1) pool acc =
      TrimToSizeGo usage incRelayPerK sizelimit fuel
        (trimStepPool pool it incRelayPerK)
        (trimStepOutpoints pool it incRelayPerK acc) := by
  simp only [TrimToSizeGo, hne, Bool.false_eq_true, if_false, reduceIte]
  rw [if_neg (by omega : ¬ usage pool ≤ sizelimit), hmin]
  rfl

theorem trimGo_post (usage : CTxMemPool → Nat) (incRelayPerK : Int)
    (sizelimit : Nat) :
    ∀ fuel (pool : CTxMemPool) (acc : List COutPoint), pool.mapTx.length ≤ fuel →
      usage (TrimToSizeGo usage incRelayPerK sizelimit fuel pool acc).1 ≤ sizelimit ∨
        (TrimToSizeGo usage incRelayPerK sizelimit fuel pool acc).1.mapTx = [] := by
  intro fuel
  induction fuel with
  | zero =>
    intro pool acc hlen
    right
    have : pool.mapTx.length = 0 := Nat.le_zero.mp hlen
    simpa [TrimToSizeGo] using List.length_eq_zero.mp this
  | succ n ih =>
    intro pool acc hlen
    by_cases hemp : pool.mapTx.isEmpty = true
    · right
      simpa [TrimToSizeGo, hemp] using List.isEmpty_iff.mp hemp
    · have hne : pool.mapTx.isEmpty = false := by
        cases h : pool.mapTx.isEmpty
        · rfl
        · exact absurd h hemp
      by_cases hus : usage pool ≤ sizelimit
      · left
        simp only [TrimToSizeGo, hne, Bool.false_eq_true, if_false, reduceIte,
          if_pos hus]
        exact hus
      · obtain ⟨it, hmin, hmem⟩ := minDescendantScore_some pool
          (fun h => by rw [h] at hne; cases hne)
        rw [trimGo_unfold usage incRelayPerK sizelimit n pool acc it hne
          (by omega) hmin]
        apply ih
        have := trimStepPool_length_lt pool it incRelayPerK hmem
        omega

/-- C6: `TrimToSize` leaves the pool within the memory budget or empty, and
each loop iteration — taken while the pool is non-empty and usage exceeds
the limit — removes the entry lowest in the descendant-feerate ordering
together with all its descendants (reason `SIZELIMIT`) and raises the
rolling minimum feerate to the maximum of its current value and the removed
package's feerate plus the incremental relay fee. -/
theorem C6_trimToSize (usage : CTxMemPool → Nat) (incRelayPerK : Int)
    (sizelimit : Nat) (pool : CTxMemPool) :
    (usage (pool.TrimToSize usage incRelayPerK sizelimit).1 ≤ sizelimit ∨
      (pool.TrimToSize usage incRelayPerK sizelimit).1.mapTx = []) ∧
    (∀ fuel acc it, pool.mapTx.isEmpty = false → sizelimit < usage pool →
      pool.minDescendantScore = some it →
      TrimToSizeGo usage incRelayPerK sizelimit (fuel + 1) pool acc =
        TrimToSizeGo usage incRelayPerK sizelimit fuel
          (trimStepPool pool it incRelayPerK)
          (trimStepOutpoints pool it incRelayPerK acc) ∧
      (trimStepPool pool it incRelayPerK).rollingMinimumFeeRate =
        max pool.rollingMinimumFeeRate
          (feeRatePerK it.nModFeesWithDescendants it.nSizeWithDescendants + incRelayPerK) ∧
      poolTxids (trimStepPool pool it incRelayPerK) =
        (poolTxids pool).filter (fun x =>
          !(((pool.trackPackageRemoved (trimSelectedRate it incRelayPerK)).CalculateDescendants
            it.tx.txid []).contains x))) := by
  constructor
  · exact trimGo_post usage incRelayPerK sizelimit (pool.mapTx.length + 1) pool []
      (by omega)
  · intro fuel acc it hne husage hmin
    refine ⟨trimGo_unfold usage incRelayPerK sizelimit fuel pool acc it hne husage hmin,
      ?_, trimStepPool_txids pool it incRelayPerK⟩
    have hroll : RollingPreserved
        (pool.trackPackageRemoved (trimSelectedRate it incRelayPerK))
        (trimStepPool pool it incRelayPerK) :=
      removeStaged_rollingPreserved _ _ _ _
    rw [RollingPreserved] at hroll
    rw [hroll, trackPackageRemoved_rolling]
    rfl

/-- Witness for C6 at the two-entry chain pool with a count-based usage
accountant: one iteration evicts the whole pool and bumps the rolling
feerate to 2200. -/
theorem C6_trimToSize_witness :
    TrimToSizeGo (fun p => 200 * p.mapTx.length) 1000 100 3 c7pool [] =
      TrimToSizeGo (fun p => 200 * p.mapTx.length) 1000 100 2
        (trimStepPool c7pool c7e1 1000)
        (trimStepOutpoints c7pool c7e1 1000 []) ∧
    (trimStepPool c7pool c7e1 1000).rollingMinimumFeeRate =
      max c7pool.rollingMinimumFeeRate
        (feeRatePerK c7e1.nModFeesWithDescendants c7e1.nSizeWithDescendants + 1000) := by
  have h := (C6_trimToSize (fun p => 200 * p.mapTx.length) 1000 100 c7pool).2
    2 [] c7e1 (by decide) (by decide) (by decide)
  exact ⟨h.1, h.2.1⟩

/-! ## Prioritise round-trip lemmas (claim C8) -/

/-- The skeleton of an entry: exactly the fields the ancestor/descendant
traversals read (transaction, link record, virtual size, descendant
size/count aggregates). -/
def entrySkel (e : CTxMemPoolEntry) :
    CTransaction × List TxId × List TxId × Nat × Int × Int :=
  (e.tx, e.parents, e.children, e.txSize, e.nSizeWithDescendants,
    e.nCountWithDescendants)

/-- The skeleton of a pool's entry store. -/
def poolSkel (pool : CTxMemPool) :
    List (CTransaction × List TxId × List TxId × Nat × Int × Int) :=
  pool.mapTx.map entrySkel

theorem entrySkel_tx {a b : CTxMemPoolEntry} (h : entrySkel a = entrySkel b) :
    a.tx = b.tx := congrArg (fun s => s.1) h

theorem entrySkel_parents {a b : CTxMemPoolEntry} (h : entrySkel a = entrySkel b) :
    a.parents = b.parents := congrArg (fun s => s.2.1) h

theorem entrySkel_children {a b : CTxMemPoolEntry} (h : entrySkel a = entrySkel b) :
    a.children = b.children := congrArg (fun s => s.2.2.1) h

theorem entrySkel_txSize {a b : CTxMemPoolEntry} (h : entrySkel a = entrySkel b) :
    a.txSize = b.txSize := congrArg (fun s => s.2.2.2.1) h

theorem entrySkel_szD {a b : CTxMemPoolEntry} (h : entrySkel a = entrySkel b) :
    a.nSizeWithDescendants = b.nSizeWithDescendants :=
  congrArg (fun s => s.2.2.2.2.1) h

theorem entrySkel_cntD {a b : CTxMemPoolEntry} (h : entrySkel a = entrySkel b) :
    a.nCountWithDescendants = b.nCountWithDescendants :=
  congrArg (fun s => s.2.2.2.2.2) h

/-- Lookup by txid is determined by the skeleton of the store. -/
theorem find_skel_congr (t : TxId) :
    ∀ (l1 l2 : List CTxMemPoolEntry), l1.map entrySkel = l2.map entrySkel →
      (l1.find? (fun e => e.tx.txid == t)).map entrySkel =
        (l2.find? (fun e => e.tx.txid == t)).map entrySkel := by
  intro l1
  induction l1 with
  | nil =>
    intro l2 h
    cases l2 with
    | nil => rfl
    | cons b bs => simp at h
  | cons a as ih =>
    intro l2 h
    cases l2 with
    | nil => simp at h
    | cons b bs =>
      simp only [List.map_cons, List.cons.injEq] at h
      obtain ⟨hab, htail⟩ := h
      have htx : a.tx = b.tx := entrySkel_tx hab
      simp only [List.find?_cons]
      rw [show (b.tx.txid == t) = (a.tx.txid == t) from by rw [htx]]
      cases hc : (a.tx.txid == t) with
      | true => simpa using hab
      | false => exact ih bs htail

/-- The parent-staging inner loop of the ancestor traversal, named. -/
def cmpaParentStage (l1 : Nat) (stageit : TxId) (sa : List TxId)
    (parents rest : List TxId) : Except Unit (List TxId) :=
  parents.foldlM (fun acc phash =>
    let acc' := if (setInsert stageit sa).contains phash then acc else setInsert phash acc
    if acc'.length + (setInsert stageit sa).length + 1 > l1 then Except.error ()
    else Except.ok acc') rest

theorem cmpaGo_cons_none (pool : CTxMemPool) (ets l1 l2 l3 l4 n : Nat)
    (stageit : TxId) (rest sa : List TxId) (ts : Nat)
    (hf : pool.findTx stageit = none) :
    CalculateMemPoolAncestorsGo pool ets l1 l2 l3 l4 (n + 1) (stageit :: rest) sa ts =
      CalculateMemPoolAncestorsGo pool ets l1 l2 l3 l4 n rest sa ts := by
  simp only [CalculateMemPoolAncestorsGo, hf]

theorem cmpaGo_cons_some (pool : CTxMemPool) (ets l1 l2 l3 l4 n : Nat)
    (stageit : TxId) (rest sa : List TxId) (ts : Nat) (e : CTxMemPoolEntry)
    (hf : pool.findTx stageit = some e) :
    CalculateMemPoolAncestorsGo pool ets l1 l2 l3 l4 (n + 1) (stageit :: rest) sa ts =
      (if e.nSizeWithDescendants + (ets : Int) > (l4 : Int) then (false, setInsert stageit sa)
      else if e.nCountWithDescendants + 1 > (l3 : Int) then (false, setInsert stageit sa)
      else if ts + e.txSize > l2 then (false, setInsert stageit sa)
      else
        match cmpaParentStage l1 stageit sa e.parents rest with
        | Except.error _ => (false, setInsert stageit sa)
        | Except.ok rest' =>
          CalculateMemPoolAncestorsGo pool ets l1 l2 l3 l4 n rest' (setInsert stageit sa)
            (ts + e.txSize)) := by
  simp only [CalculateMemPoolAncestorsGo, hf]
  rfl

/-- The ancestor worklist loop is determined by the skeleton of the store. -/
theorem cmpaGo_skel_congr {p q : CTxMemPool} (h : poolSkel q = poolSkel p)
    (ets l1 l2 l3 l4 : Nat) :
    ∀ fuel ph sa ts,
      CalculateMemPoolAncestorsGo q ets l1 l2 l3 l4 fuel ph sa ts =
        CalculateMemPoolAncestorsGo p ets l1 l2 l3 l4 fuel ph sa ts := by
  intro fuel
  induction fuel with
  | zero => intro ph sa ts; rfl
  | succ n ih =>
    intro ph sa ts
    cases ph with
    | nil => rfl
    | cons stageit rest =>
      have hopt := find_skel_congr stageit q.mapTx p.mapTx h
      cases hfq : q.findTx stageit with
      | none =>
        cases hfp : p.findTx stageit with
        | none =>
          rw [cmpaGo_cons_none q ets l1 l2 l3 l4 n stageit rest sa ts hfq,
            cmpaGo_cons_none p ets l1 l2 l3 l4 n stageit rest sa ts hfp]
          exact ih rest sa ts
        | some ep =>
          exfalso
          rw [CTxMemPool.findTx] at hfq hfp
          rw [hfq, hfp] at hopt
          simp at hopt
      | some eq' =>
        cases hfp : p.findTx stageit with
        | none =>
          exfalso
          rw [CTxMemPool.findTx] at hfq hfp
          rw [hfq, hfp] at hopt
          simp at hopt
        | some ep =>
          have hsk : entrySkel eq' = entrySkel ep := by
            rw [CTxMemPool.findTx] at hfq hfp
            rw [hfq, hfp] at hopt
            simpa using hopt
          rw [cmpaGo_cons_some q ets l1 l2 l3 l4 n stageit rest sa ts eq' hfq,
            cmpaGo_cons_some p ets l1 l2 l3 l4 n stageit rest sa ts ep hfp,
            entrySkel_parents hsk, entrySkel_txSize hsk, entrySkel_szD hsk,
            entrySkel_cntD hsk]
          by_cases h1 : ep.nSizeWithDescendants + (ets : Int) > (l4 : Int)
          · rw [if_pos h1, if_pos h1]
          · rw [if_neg h1, if_neg h1]
            by_cases h2 : ep.nCountWithDescendants + 1 > (l3 : Int)
            · rw [if_pos h2, if_pos h2]
            · rw [if_neg h2, if_neg h2]
              by_cases h3 : ts + ep.txSize > l2
              · rw [if_pos h3, if_pos h3]
              · rw [if_neg h3, if_neg h3]
                cases hF : cmpaParentStage l1 stageit sa ep.parents rest with
                | error u => rfl
                | ok rest' => exact ih rest' (setInsert stageit sa) (ts + ep.txSize)

/-- The descendant worklist loop is determined by the skeleton of the store. -/
theorem cdGo_skel_congr {p q : CTxMemPool} (h : poolSkel q = poolSkel p) :
    ∀ fuel stage sd,
      CalculateDescendantsGo q fuel stage sd = CalculateDescendantsGo p fuel stage sd := by
  intro fuel
  induction fuel with
  | zero => intro stage sd; rfl
  | succ n ih =>
    intro stage sd
    cases stage with
    | nil => rfl
    | cons it rest =>
      have hopt := find_skel_congr it q.mapTx p.mapTx h
      have hch : (match q.findTx it with
            | none => ([] : List TxId)
            | some e => e.children) =
          (match p.findTx it with
            | none => ([] : List TxId)
            | some e => e.children) := by
        cases hfq : q.findTx it with
        | none =>
          cases hfp : p.findTx it with
          | none => rfl
          | some ep =>
            exfalso
            rw [CTxMemPool.findTx] at hfq hfp
            rw [hfq, hfp] at hopt
            simp at hopt
        | some eq' =>
          cases hfp : p.findTx it with
          | none =>
            exfalso
            rw [CTxMemPool.findTx] at hfq hfp
            rw [hfq, hfp] at hopt
            simp at hopt
          | some ep =>
            have hsk : entrySkel eq' = entrySkel ep := by
              rw [CTxMemPool.findTx] at hfq hfp
              rw [hfq, hfp] at hopt
              simpa using hopt
            exact entrySkel_children hsk
      rw [calcDescGo_succ, calcDescGo_succ, hch]
      exact ih _ _

theorem poolSkel_length_eq {p q : CTxMemPool} (h : poolSkel q = poolSkel p) :
    q.mapTx.length = p.mapTx.length := by
  have h2 := congrArg List.length h
  simpa [poolSkel] using h2

theorem skel_parentsLengths {p q : CTxMemPool} (h : poolSkel q = poolSkel p) :
    q.mapTx.map (fun e => e.parents.length) = p.mapTx.map (fun e => e.parents.length) := by
  have h2 := congrArg (List.map (fun s :
      CTransaction × List TxId × List TxId × Nat × Int × Int => s.2.1.length)) h
  simpa [poolSkel, List.map_map, Function.comp, entrySkel] using h2

theorem skel_childrenLengths {p q : CTxMemPool} (h : poolSkel q = poolSkel p) :
    q.mapTx.map (fun e => e.children.length) = p.mapTx.map (fun e => e.children.length) := by
  have h2 := congrArg (List.map (fun s :
      CTransaction × List TxId × List TxId × Nat × Int × Int => s.2.2.1.length)) h
  simpa [poolSkel, List.map_map, Function.comp, entrySkel] using h2

theorem cdFuel_skel {p q : CTxMemPool} (h : poolSkel q = poolSkel p) :
    cdFuel q = cdFuel p := by
  unfold cdFuel
  rw [poolSkel_length_eq h, skel_childrenLengths h]

theorem cmpaFuel_skel {p q : CTxMemPool} (h : poolSkel q = poolSkel p)
    {e1 e2 : CTxMemPoolEntry} (he : entrySkel e1 = entrySkel e2) :
    cmpaFuel q e1 = cmpaFuel p e2 := by
  unfold cmpaFuel
  rw [poolSkel_length_eq h, skel_parentsLengths h, entrySkel_tx he,
    entrySkel_parents he]

/-- `CalculateDescendants` is determined by the skeleton of the store. -/
theorem calcDesc_skel_congr {p q : CTxMemPool} (h : poolSkel q = poolSkel p)
    (t : TxId) (acc : List TxId) :
    q.CalculateDescendants t acc = p.CalculateDescendants t acc := by
  unfold CTxMemPool.CalculateDescendants
  rw [cdFuel_skel h]
  exact cdGo_skel_congr h _ _ _

/-- `CalculateMemPoolAncestors` with `fSearchForParents = false` is determined
by the skeletons of the store and of the entry. -/
theorem cmpa_skel_congr {p q : CTxMemPool} (h : poolSkel q = poolSkel p)
    {e1 e2 : CTxMemPoolEntry} (he : entrySkel e1 = entrySkel e2)
    (l1 l2 l3 l4 : Nat) :
    CalculateMemPoolAncestors q e1 l1 l2 l3 l4 false =
      CalculateMemPoolAncestors p e2 l1 l2 l3 l4 false := by
  unfold CalculateMemPoolAncestors
  simp only [Bool.false_eq_true, if_false]
  rw [entrySkel_parents he, entrySkel_txSize he, cmpaFuel_skel h he]
  exact cmpaGo_skel_congr h _ _ _ _ _ _ _ _ _

/-- Mapping the store with a skeleton-preserving function preserves the pool
skeleton. -/
theorem poolSkel_map_of_skel (l : List CTxMemPoolEntry)
    (f : CTxMemPoolEntry → CTxMemPoolEntry)
    (hf : ∀ e, entrySkel (f e) = entrySkel e) :
    (l.map f).map entrySkel = l.map entrySkel := by
  induction l with
  | nil => rfl
  | cons a as ih => simp only [List.map_cons, hf, ih]

theorem entrySkel_updateFeeDelta (e : CTxMemPoolEntry) (v : Int) :
    entrySkel (e.UpdateFeeDelta v) = entrySkel e := rfl

theorem entrySkel_updateAncestorFee (e : CTxMemPoolEntry) (d : Int) :
    entrySkel (e.UpdateAncestorState 0 d 0 0) = entrySkel e := rfl

theorem entrySkel_updateDescendantFee (e : CTxMemPoolEntry) (d : Int) :
    entrySkel (e.UpdateDescendantState 0 d 0) = entrySkel e := by
  simp [entrySkel, CTxMemPoolEntry.UpdateDescendantState]

theorem poolSkel_modifyTx (pool : CTxMemPool) (t : TxId)
    (f : CTxMemPoolEntry → CTxMemPoolEntry)
    (hf : ∀ e, entrySkel (f e) = entrySkel e) :
    poolSkel (pool.modifyTx t f) = poolSkel pool := by
  unfold poolSkel CTxMemPool.modifyTx
  apply poolSkel_map_of_skel
  intro e
  by_cases hc : (e.tx.txid == t) = true
  · rw [if_pos hc]; exact hf e
  · rw [if_neg hc]

theorem poolSkel_modifySet (pool : CTxMemPool) (s : List TxId)
    (f : CTxMemPoolEntry → CTxMemPoolEntry)
    (hf : ∀ e, entrySkel (f e) = entrySkel e) :
    poolSkel (pool.modifySet s f) = poolSkel pool := by
  unfold poolSkel CTxMemPool.modifySet
  apply poolSkel_map_of_skel
  intro e
  by_cases hc : s.contains e.tx.txid = true
  · rw [if_pos hc]; exact hf e
  · rw [if_neg hc]

/-- Lookup by txid through a txid-preserving entry map. -/
theorem find_map_txid (l : List CTxMemPoolEntry)
    (g : CTxMemPoolEntry → CTxMemPoolEntry)
    (hg : ∀ e, (g e).tx.txid = e.tx.txid) (t : TxId) :
    (l.map g).find? (fun e => e.tx.txid == t) =
      (l.find? (fun e => e.tx.txid == t)).map g := by
  induction l with
  | nil => rfl
  | cons a as ih =>
    simp only [List.map_cons, List.find?_cons, hg a]
    cases hp : (a.tx.txid == t) with
    | true => rfl
    | false => exact ih

/-- `mapDeltas[h] += d` then lookup: the stored value grows by `d`. -/
theorem lookupDelta_bump (m : List (TxId × Int)) (h : TxId) (d : Int) :
    lookupDelta (bumpDelta m h d) h = lookupDelta m h + d := by
  induction m with
  | nil => simp [bumpDelta, lookupDelta, List.find?]
  | cons p rest ih =>
    by_cases hp : (p.1 == h) = true
    · unfold bumpDelta
      rw [show (p :: rest).find? (fun q => q.1 == h) = some p from by
        simp [List.find?_cons, hp]]
      unfold lookupDelta
      rw [show ((p :: rest).map (fun q => if q.1 == h then (q.1, q.2 + d) else q)).find?
            (fun q => q.1 == h) = some (p.1, p.2 + d) from by
          simp only [List.map_cons, if_pos hp]
          simp [List.find?_cons, hp]]
      rw [show (p :: rest).find? (fun q => q.1 == h) = some p from by
        simp [List.find?_cons, hp]]
    · have hhead : bumpDelta (p :: rest) h d = p :: bumpDelta rest h d := by
        unfold bumpDelta
        rw [show (p :: rest).find? (fun q => q.1 == h) = rest.find? (fun q => q.1 == h) from by
          simp [List.find?_cons, hp]]
        cases hf : rest.find? (fun q => q.1 == h) with
        | none => rfl
        | some q => simp only [List.map_cons, if_neg hp]
      rw [hhead]
      unfold lookupDelta
      rw [show (p :: bumpDelta rest h d).find? (fun q => q.1 == h) =
            (bumpDelta rest h d).find? (fun q => q.1 == h) from by
          simp [List.find?_cons, hp],
        show (p :: rest).find? (fun q => q.1 == h) = rest.find? (fun q => q.1 == h) from by
          simp [List.find?_cons, hp]]
      unfold lookupDelta at ih
      exact ih

/-- The first stage of `PrioritiseTransaction` in the present case: bump the
delta map and store the accumulated delta on the entry. -/
def prioPool1 (pool : CTxMemPool) (hash : TxId) (nFeeDelta : Int) : CTxMemPool :=
  ({ pool with mapDeltas := bumpDelta pool.mapDeltas hash nFeeDelta } : CTxMemPool).modifyTx
    hash (fun e => e.UpdateFeeDelta (lookupDelta (bumpDelta pool.mapDeltas hash nFeeDelta) hash))

/-- The ancestor set computed by `PrioritiseTransaction`. -/
def prioAncs (pool : CTxMemPool) (hash : TxId) (nFeeDelta : Int) : List TxId :=
  match (prioPool1 pool hash nFeeDelta).findTx hash with
  | none => []
  | some e1 =>
    (CalculateMemPoolAncestors (prioPool1 pool hash nFeeDelta) e1
      nNoLimit nNoLimit nNoLimit nNoLimit false).2

/-- The second stage: every ancestor's descendant-fee aggregate gains the
increment. -/
def prioPool2 (pool : CTxMemPool) (hash : TxId) (nFeeDelta : Int) : CTxMemPool :=
  (prioPool1 pool hash nFeeDelta).modifySet (prioAncs pool hash nFeeDelta)
    (fun a => a.UpdateDescendantState 0 nFeeDelta 0)

/-- The descendant set computed by `PrioritiseTransaction` (the entry itself
erased). -/
def prioDescs (pool : CTxMemPool) (hash : TxId) (nFeeDelta : Int) : List TxId :=
  setRemove hash ((prioPool2 pool hash nFeeDelta).CalculateDescendants hash [])

/-- The third stage: every descendant's ancestor-fee aggregate gains the
increment. -/
def prioPool3 (pool : CTxMemPool) (hash : TxId) (nFeeDelta : Int) : CTxMemPool :=
  (prioPool2 pool hash nFeeDelta).modifySet (prioDescs pool hash nFeeDelta)
    (fun d => d.UpdateAncestorState 0 nFeeDelta 0 0)

/-- `PrioritiseTransaction` when the hash is present in the pool, written as
staged definitions. -/
def prioritisePresent (pool : CTxMemPool) (hash : TxId) (nFeeDelta : Int) : CTxMemPool :=
  { prioPool3 pool hash nFeeDelta with
    nTransactionsUpdated := (prioPool3 pool hash nFeeDelta).nTransactionsUpdated + 1 }

/-- On a pool containing the hash, `PrioritiseTransaction` is the staged
computation. -/
theorem prioritise_eq_present (pool : CTxMemPool) (hash : TxId) (nFeeDelta : Int)
    (h : pool.existsTx hash = true) :
    pool.PrioritiseTransaction hash nFeeDelta = prioritisePresent pool hash nFeeDelta := by
  simp only [CTxMemPool.PrioritiseTransaction]
  cases hf : ({ pool with mapDeltas := bumpDelta pool.mapDeltas hash nFeeDelta } :
      CTxMemPool).findTx hash with
  | none =>
    exfalso
    have hpf : pool.findTx hash = none := hf
    rw [CTxMemPool.existsTx, hpf] at h
    simp at h
  | some e => rfl

theorem poolSkel_prioPool1 (pool : CTxMemPool) (hash : TxId) (v : Int) :
    poolSkel (prioPool1 pool hash v) = poolSkel pool := by
  unfold prioPool1
  rw [poolSkel_modifyTx _ _ _ (fun e => entrySkel_updateFeeDelta e _)]
  rfl

theorem poolSkel_prioPool2 (pool : CTxMemPool) (hash : TxId) (v : Int) :
    poolSkel (prioPool2 pool hash v) = poolSkel pool := by
  unfold prioPool2
  rw [poolSkel_modifySet _ _ _ (fun e => entrySkel_updateDescendantFee e _),
    poolSkel_prioPool1]

theorem poolSkel_prioPool3 (pool : CTxMemPool) (hash : TxId) (v : Int) :
    poolSkel (prioPool3 pool hash v) = poolSkel pool := by
  unfold prioPool3
  rw [poolSkel_modifySet _ _ _ (fun e => entrySkel_updateAncestorFee e _),
    poolSkel_prioPool2]

theorem poolSkel_prioritisePresent (pool : CTxMemPool) (hash : TxId) (v : Int) :
    poolSkel (prioritisePresent pool hash v) = poolSkel pool :=
  poolSkel_prioPool3 pool hash v

/-- Transfer a successful lookup across skeleton-equal stores. -/
theorem findTx_skel_some {p q : CTxMemPool} (h : poolSkel q = poolSkel p) {t : TxId}
    {e : CTxMemPoolEntry} (hf : p.findTx t = some e) :
    ∃ e', q.findTx t = some e' ∧ entrySkel e' = entrySkel e := by
  have hopt := find_skel_congr t q.mapTx p.mapTx h
  have hf' : p.mapTx.find? (fun x => x.tx.txid == t) = some e := hf
  rw [hf'] at hopt
  cases hq : q.mapTx.find? (fun x => x.tx.txid == t) with
  | none => rw [hq] at hopt; simp at hopt
  | some e' =>
    rw [hq] at hopt
    exact ⟨e', hq, by simpa using hopt⟩

/-- The prioritise ancestor set only depends on the pool skeleton. -/
theorem prioAncs_skel_congr {p q : CTxMemPool} (h : poolSkel q = poolSkel p)
    (hash : TxId) (v w : Int) :
    prioAncs q hash w = prioAncs p hash v := by
  have h1 : poolSkel (prioPool1 q hash w) = poolSkel (prioPool1 p hash v) := by
    rw [poolSkel_prioPool1, poolSkel_prioPool1, h]
  unfold prioAncs
  cases hfp : (prioPool1 p hash v).findTx hash with
  | none =>
    cases hfq : (prioPool1 q hash w).findTx hash with
    | none => rfl
    | some e' =>
      exfalso
      have hopt := find_skel_congr hash (prioPool1 q hash w).mapTx
        (prioPool1 p hash v).mapTx h1
      have hfq' : (prioPool1 q hash w).mapTx.find? (fun x => x.tx.txid == hash) = some e' := hfq
      have hfp' : (prioPool1 p hash v).mapTx.find? (fun x => x.tx.txid == hash) = none := hfp
      rw [hfq', hfp'] at hopt
      simp at hopt
  | some e1 =>
    obtain ⟨e1', hq, hsk⟩ := findTx_skel_some h1 hfp
    rw [hq]
    exact congrArg Prod.snd (cmpa_skel_congr h1 hsk _ _ _ _)

/-- The prioritise descendant set only depends on the pool skeleton. -/
theorem prioDescs_skel_congr {p q : CTxMemPool} (h : poolSkel q = poolSkel p)
    (hash : TxId) (v w : Int) :
    prioDescs q hash w = prioDescs p hash v := by
  have h2 : poolSkel (prioPool2 q hash w) = poolSkel (prioPool2 p hash v) := by
    rw [poolSkel_prioPool2, poolSkel_prioPool2, h]
  unfold prioDescs
  rw [calcDesc_skel_congr h2]

/-- A list map that fixes every member is the identity. -/
theorem map_id_of_mem {α : Type} (l : List α) (f : α → α) (h : ∀ a ∈ l, f a = a) :
    l.map f = l := by
  induction l with
  | nil => rfl
  | cons a as ih =>
    simp only [List.map_cons, h a (by simp)]
    rw [ih (fun x hx => h x (by simp [hx]))]

/-- C8: `prioritise(id, +δ); prioritise(id, −δ)` restores the entry store
exactly — the entry's fee delta and modified fee, every ancestor's
descendant-fee aggregate and every descendant's ancestor-fee aggregate return
to their prior values.  The hypothesis is the source invariant that a stored
entry's fee delta equals its `mapDeltas` value (established by `addUnchecked`
and maintained by `PrioritiseTransaction` itself). -/
theorem C8_prioritise_roundtrip (pool : CTxMemPool) (id : TxId) (δ : Int)
    (e0 : CTxMemPoolEntry) (hfind : pool.findTx id = some e0)
    (hcons : ∀ e ∈ pool.mapTx, e.tx.txid = id →
      e.feeDelta = lookupDelta pool.mapDeltas id) :
    ((pool.PrioritiseTransaction id δ).PrioritiseTransaction id (-δ)).mapTx =
      pool.mapTx := by
  have hex1 : pool.existsTx id = true := by
    rw [CTxMemPool.existsTx, hfind]; rfl
  have hskP1 : poolSkel (prioritisePresent pool id δ) = poolSkel pool :=
    poolSkel_prioritisePresent pool id δ
  have hex2 : (prioritisePresent pool id δ).existsTx id = true := by
    obtain ⟨e', hq, hs⟩ := findTx_skel_some hskP1 hfind
    rw [CTxMemPool.existsTx, hq]; rfl
  rw [prioritise_eq_present pool id δ hex1, prioritise_eq_present _ id (-δ) hex2]
  have hA : prioAncs (prioritisePresent pool id δ) id (-δ) = prioAncs pool id δ :=
    prioAncs_skel_congr hskP1 id δ (-δ)
  have hD : prioDescs (prioritisePresent pool id δ) id (-δ) = prioDescs pool id δ :=
    prioDescs_skel_congr hskP1 id δ (-δ)
  have hmap : (prioritisePresent (prioritisePresent pool id δ) id (-δ)).mapTx =
      (((((pool.mapTx.map
        (fun e => if e.tx.txid == id then
          e.UpdateFeeDelta (lookupDelta (bumpDelta pool.mapDeltas id δ) id) else e)).map
        (fun e => if (prioAncs pool id δ).contains e.tx.txid then
          e.UpdateDescendantState 0 δ 0 else e)).map
        (fun e => if (prioDescs pool id δ).contains e.tx.txid then
          e.UpdateAncestorState 0 δ 0 0 else e)).map
        (fun e => if e.tx.txid == id then
          e.UpdateFeeDelta
            (lookupDelta (bumpDelta (bumpDelta pool.mapDeltas id δ) id (-δ)) id)
          else e)).map
        (fun e => if (prioAncs (prioritisePresent pool id δ) id (-δ)).contains e.tx.txid then
          e.UpdateDescendantState 0 (-δ) 0 else e)).map
        (fun e => if (prioDescs (prioritisePresent pool id δ) id (-δ)).contains e.tx.txid then
          e.UpdateAncestorState 0 (-δ) 0 0 else e) := rfl
  rw [hmap]
  simp only [hA, hD, lookupDelta_bump, List.map_map]
  apply map_id_of_mem
  intro e hmem
  have hfd : e.tx.txid = id → e.feeDelta = lookupDelta pool.mapDeltas id :=
    fun hx => hcons e hmem hx
  simp only [Function.comp_apply]
  obtain ⟨tx, nFee, nTime, eh, sc, soc, tsz, usz, fd, cD, sD, mD, cA, sA, mA, gA, par, chi⟩ := e
  dsimp only at hfd ⊢
  cases h1 : tx.txid == id <;>
    cases h2 : (prioAncs pool id δ).contains tx.txid <;>
      cases h3 : (prioDescs pool id δ).contains tx.txid <;>
    simp only [h1, h2, h3, CTxMemPoolEntry.UpdateFeeDelta,
      CTxMemPoolEntry.UpdateDescendantState, CTxMemPoolEntry.UpdateAncestorState,
      if_true, Bool.false_eq_true, if_false, CTxMemPoolEntry.mk.injEq,
      true_and, and_true]
  all_goals
    first
    | trivial
    | (have hx : tx.txid = id := eq_of_beq h1
       have hfd' := hfd hx
       omega)
    | omega

/-- C8 witness: on the two-entry chain pool (consistent zero fee deltas),
bumping txid 2 by 5 and then by −5 restores the entry store. -/
theorem C8_prioritise_roundtrip_witness :
    ((c7pool.PrioritiseTransaction 2 5).PrioritiseTransaction 2 (-5)).mapTx =
      c7pool.mapTx :=
  C8_prioritise_roundtrip c7pool 2 5 c7e2 (by rfl) (by decide)

end Mempool
